import Mathlib

/-!
Verification of the geotic ECS artifact engine (serializer, deserializer,
validator, migration registry) against its natural-language specification.

The JavaScript sources are shallowly embedded: JS values appearing inside
component data are modelled by the inductive `Value`; entity references are
identified by entity id (the specification states that ids stand in for
identity); JS numbers occurring in the artifact engine are integral and are
modelled by `Int`; BigInt is modelled by `Int`; a Date is identified by its
ISO string.  Fallible operations return `Except`.
-/

set_option maxHeartbeats 1000000
set_option maxRecDepth 100000

/-- A JavaScript value as it occurs in component data and artifacts.
`ventity` is a live reference to the entity with the given id; `vbigint` is a
live BigInt; `vdate` is a live Date (identified by its ISO string).  Wire
marker objects (with dollar-ref / dollar-bigint / dollar-date keys) are
ordinary `vobj` values, exactly as in JavaScript. -/
inductive Value where
  | vnull : Value
  | vbool (b : Bool) : Value
  | vnum (n : Int) : Value
  | vstr (s : String) : Value
  | vbigint (n : Int) : Value
  | vdate (iso : String) : Value
  | ventity (id : String) : Value
  | varr (xs : List Value) : Value
  | vobj (fs : List (String × Value)) : Value
deriving Repr

mutual

def Value.beq : Value → Value → Bool
  | .vnull, .vnull => true
  | .vbool a, .vbool b => a == b
  | .vnum a, .vnum b => a == b
  | .vstr a, .vstr b => a == b
  | .vbigint a, .vbigint b => a == b
  | .vdate a, .vdate b => a == b
  | .ventity a, .ventity b => a == b
  | .varr xs, .varr ys => Value.beqList xs ys
  | .vobj fs, .vobj gs => Value.beqFields fs gs
  | _, _ => false

def Value.beqList : List Value → List Value → Bool
  | [], [] => true
  | x :: xs, y :: ys => Value.beq x y && Value.beqList xs ys
  | _, _ => false

def Value.beqFields : List (String × Value) → List (String × Value) → Bool
  | [], [] => true
  | (k, x) :: xs, (l, y) :: ys => k == l && Value.beq x y && Value.beqFields xs ys
  | _, _ => false

end

mutual

theorem Value.eq_of_beq : ∀ {a b : Value}, Value.beq a b = true → a = b
  | .vnull, .vnull, _ => rfl
  | .vbool _, .vbool _, h => by simpa [Value.beq] using h
  | .vnum _, .vnum _, h => by simpa [Value.beq] using h
  | .vstr _, .vstr _, h => by simpa [Value.beq] using h
  | .vbigint _, .vbigint _, h => by simpa [Value.beq] using h
  | .vdate _, .vdate _, h => by simpa [Value.beq] using h
  | .ventity _, .ventity _, h => by simpa [Value.beq] using h
  | .varr xs, .varr ys, h =>
      congrArg Value.varr (Value.eqList_of_beq (by simpa [Value.beq] using h))
  | .vobj fs, .vobj gs, h =>
      congrArg Value.vobj (Value.eqFields_of_beq (by simpa [Value.beq] using h))
  | .vnull, .vbool _, h => by simp [Value.beq] at h
  | .vnull, .vnum _, h => by simp [Value.beq] at h
  | .vnull, .vstr _, h => by simp [Value.beq] at h
  | .vnull, .vbigint _, h => by simp [Value.beq] at h
  | .vnull, .vdate _, h => by simp [Value.beq] at h
  | .vnull, .ventity _, h => by simp [Value.beq] at h
  | .vnull, .varr _, h => by simp [Value.beq] at h
  | .vnull, .vobj _, h => by simp [Value.beq] at h
  | .vbool _, .vnull, h => by simp [Value.beq] at h
  | .vbool _, .vnum _, h => by simp [Value.beq] at h
  | .vbool _, .vstr _, h => by simp [Value.beq] at h
  | .vbool _, .vbigint _, h => by simp [Value.beq] at h
  | .vbool _, .vdate _, h => by simp [Value.beq] at h
  | .vbool _, .ventity _, h => by simp [Value.beq] at h
  | .vbool _, .varr _, h => by simp [Value.beq] at h
  | .vbool _, .vobj _, h => by simp [Value.beq] at h
  | .vnum _, .vnull, h => by simp [Value.beq] at h
  | .vnum _, .vbool _, h => by simp [Value.beq] at h
  | .vnum _, .vstr _, h => by simp [Value.beq] at h
  | .vnum _, .vbigint _, h => by simp [Value.beq] at h
  | .vnum _, .vdate _, h => by simp [Value.beq] at h
  | .vnum _, .ventity _, h => by simp [Value.beq] at h
  | .vnum _, .varr _, h => by simp [Value.beq] at h
  | .vnum _, .vobj _, h => by simp [Value.beq] at h
  | .vstr _, .vnull, h => by simp [Value.beq] at h
  | .vstr _, .vbool _, h => by simp [Value.beq] at h
  | .vstr _, .vnum _, h => by simp [Value.beq] at h
  | .vstr _, .vbigint _, h => by simp [Value.beq] at h
  | .vstr _, .vdate _, h => by simp [Value.beq] at h
  | .vstr _, .ventity _, h => by simp [Value.beq] at h
  | .vstr _, .varr _, h => by simp [Value.beq] at h
  | .vstr _, .vobj _, h => by simp [Value.beq] at h
  | .vbigint _, .vnull, h => by simp [Value.beq] at h
  | .vbigint _, .vbool _, h => by simp [Value.beq] at h
  | .vbigint _, .vnum _, h => by simp [Value.beq] at h
  | .vbigint _, .vstr _, h => by simp [Value.beq] at h
  | .vbigint _, .vdate _, h => by simp [Value.beq] at h
  | .vbigint _, .ventity _, h => by simp [Value.beq] at h
  | .vbigint _, .varr _, h => by simp [Value.beq] at h
  | .vbigint _, .vobj _, h => by simp [Value.beq] at h
  | .vdate _, .vnull, h => by simp [Value.beq] at h
  | .vdate _, .vbool _, h => by simp [Value.beq] at h
  | .vdate _, .vnum _, h => by simp [Value.beq] at h
  | .vdate _, .vstr _, h => by simp [Value.beq] at h
  | .vdate _, .vbigint _, h => by simp [Value.beq] at h
  | .vdate _, .ventity _, h => by simp [Value.beq] at h
  | .vdate _, .varr _, h => by simp [Value.beq] at h
  | .vdate _, .vobj _, h => by simp [Value.beq] at h
  | .ventity _, .vnull, h => by simp [Value.beq] at h
  | .ventity _, .vbool _, h => by simp [Value.beq] at h
  | .ventity _, .vnum _, h => by simp [Value.beq] at h
  | .ventity _, .vstr _, h => by simp [Value.beq] at h
  | .ventity _, .vbigint _, h => by simp [Value.beq] at h
  | .ventity _, .vdate _, h => by simp [Value.beq] at h
  | .ventity _, .varr _, h => by simp [Value.beq] at h
  | .ventity _, .vobj _, h => by simp [Value.beq] at h
  | .varr _, .vnull, h => by simp [Value.beq] at h
  | .varr _, .vbool _, h => by simp [Value.beq] at h
  | .varr _, .vnum _, h => by simp [Value.beq] at h
  | .varr _, .vstr _, h => by simp [Value.beq] at h
  | .varr _, .vbigint _, h => by simp [Value.beq] at h
  | .varr _, .vdate _, h => by simp [Value.beq] at h
  | .varr _, .ventity _, h => by simp [Value.beq] at h
  | .varr _, .vobj _, h => by simp [Value.beq] at h
  | .vobj _, .vnull, h => by simp [Value.beq] at h
  | .vobj _, .vbool _, h => by simp [Value.beq] at h
  | .vobj _, .vnum _, h => by simp [Value.beq] at h
  | .vobj _, .vstr _, h => by simp [Value.beq] at h
  | .vobj _, .vbigint _, h => by simp [Value.beq] at h
  | .vobj _, .vdate _, h => by simp [Value.beq] at h
  | .vobj _, .ventity _, h => by simp [Value.beq] at h
  | .vobj _, .varr _, h => by simp [Value.beq] at h

theorem Value.eqList_of_beq : ∀ {xs ys : List Value}, Value.beqList xs ys = true → xs = ys
  | [], [], _ => rfl
  | x :: xs, y :: ys, h => by
      have h1 : Value.beq x y = true ∧ Value.beqList xs ys = true := by
        simpa [Value.beqList, Bool.and_eq_true] using h
      rw [Value.eq_of_beq h1.1, Value.eqList_of_beq h1.2]
  | [], _ :: _, h => by simp [Value.beqList] at h
  | _ :: _, [], h => by simp [Value.beqList] at h

theorem Value.eqFields_of_beq :
    ∀ {fs gs : List (String × Value)}, Value.beqFields fs gs = true → fs = gs
  | [], [], _ => rfl
  | (k, x) :: fs, (l, y) :: gs, h => by
      have h1 : (k == l) = true ∧ Value.beq x y = true ∧ Value.beqFields fs gs = true := by
        simpa [Value.beqFields, Bool.and_eq_true, and_assoc] using h
      have hk : k = l := by simpa using h1.1
      rw [hk, Value.eq_of_beq h1.2.1, Value.eqFields_of_beq h1.2.2]
  | [], _ :: _, h => by simp [Value.beqFields] at h
  | _ :: _, [], h => by simp [Value.beqFields] at h

end

mutual

theorem Value.beq_self : ∀ (a : Value), Value.beq a a = true
  | .vnull => rfl
  | .vbool _ => by simp [Value.beq]
  | .vnum _ => by simp [Value.beq]
  | .vstr _ => by simp [Value.beq]
  | .vbigint _ => by simp [Value.beq]
  | .vdate _ => by simp [Value.beq]
  | .ventity _ => by simp [Value.beq]
  | .varr xs => by simpa [Value.beq] using Value.beqList_self xs
  | .vobj fs => by simpa [Value.beq] using Value.beqFields_self fs

theorem Value.beqList_self : ∀ (xs : List Value), Value.beqList xs xs = true
  | [] => rfl
  | x :: xs => by
      simp [Value.beqList, Value.beq_self x, Value.beqList_self xs]

theorem Value.beqFields_self : ∀ (fs : List (String × Value)), Value.beqFields fs fs = true
  | [] => rfl
  | (k, x) :: fs => by
      simp [Value.beqFields, Value.beq_self x, Value.beqFields_self fs]

end

instance : DecidableEq Value := fun a b =>
  if h : Value.beq a b = true then isTrue (Value.eq_of_beq h)
  else isFalse (fun he => h (he ▸ Value.beq_self a))

/-- JS truthiness.  BigInt zero is falsy; objects, arrays and dates are
always truthy. -/
def jsTruthy : Value → Bool
  | .vnull => false
  | .vbool b => b
  | .vnum n => n != 0
  | .vstr s => s != ""
  | .vbigint n => n != 0
  | .vdate _ => true
  | .ventity _ => true
  | .varr _ => true
  | .vobj _ => true

/-- JS property access on a plain object (association list, first match). -/
def jsLookup (fs : List (String × Value)) (k : String) : Option Value :=
  match fs.find? (fun p => p.1 == k) with
  | some p => some p.2
  | none => none

/-- Marker keys used on the wire (`MARKERS` in
src/serialization/constants.js). -/
def refMarkerKey : String := "$ref"

def bigintMarkerKey : String := "$bigint"

def dateMarkerKey : String := "$date"

/-- The reference wire marker for an entity id, as built by
`ArtifactSerializer._encodeValue`. -/
def refMarker (id : String) : Value := .vobj [(refMarkerKey, .vstr id)]

/-- Internal runtime-only fields dropped by `bigintReplacer`
(`SKIP_FIELDS` in SerializationHelpers.js). -/
def skipFields : List String := ["_cbits", "_cbit", "_qeligible", "world", "entity"]

/-- The decimal digit characters, used to model decimal printing and parsing
of JS integers and BigInts. -/
def digitChar : Nat → Char
  | 0 => '0'
  | 1 => '1'
  | 2 => '2'
  | 3 => '3'
  | 4 => '4'
  | 5 => '5'
  | 6 => '6'
  | 7 => '7'
  | 8 => '8'
  | _ => '9'

def charDigit? (c : Char) : Option Nat :=
  if '0' ≤ c ∧ c ≤ '9' then some (c.toNat - '0'.toNat) else none

theorem charDigit_digitChar (d : Nat) (h : d < 10) : charDigit? (digitChar d) = some d := by
  interval_cases d <;> decide

/-- Decimal digit string of a natural number (models
`Number.prototype.toString` and `BigInt.prototype.toString`), with fuel. -/
def natDecAux : Nat → Nat → List Char
  | 0, _ => []
  | _ + 1, 0 => []
  | fuel + 1, n => natDecAux fuel (n / 10) ++ [digitChar (n % 10)]

def natDec (n : Nat) : String :=
  if n = 0 then "0" else String.mk (natDecAux (n + 1) n)

def intDec (n : Int) : String :=
  if n < 0 then "-" ++ natDec n.natAbs else natDec n.toNat

/-- Fold a decimal digit list into a natural number. -/
def natParseAux (acc : Nat) : List Char → Option Nat
  | [] => some acc
  | c :: cs =>
    match charDigit? c with
    | some d => natParseAux (acc * 10 + d) cs
    | none => none

/-- Parse an optionally-signed decimal integer (models `BigInt(string)` on the
decimal strings this codebase produces in bigint markers). -/
def intParseChars : List Char → Option Int
  | [] => none
  | c :: cs =>
    if c = '-' then
      match cs with
      | [] => none
      | _ =>
        match natParseAux 0 cs with
        | some m => some (-(m : Int))
        | none => none
    else
      match natParseAux 0 (c :: cs) with
      | some m => some ((m : Int))
      | none => none

def intParse? (s : String) : Option Int := intParseChars s.data

theorem natParseAux_append (acc : Nat) (l₁ l₂ : List Char)
    (h : ∀ c ∈ l₁, (charDigit? c).isSome) :
    natParseAux acc (l₁ ++ l₂) = natParseAux ((natParseAux acc l₁).getD 0) l₂ ∧
      (natParseAux acc l₁).isSome := by
  induction l₁ generalizing acc with
  | nil => simp [natParseAux]
  | cons c cs ih =>
    have hc := h c (by simp)
    have hrest : ∀ x ∈ cs, (charDigit? x).isSome := fun x hx => h x (by simp [hx])
    rcases hd : charDigit? c with _ | d
    · rw [hd] at hc; simp at hc
    · simp only [List.cons_append, natParseAux, hd]
      exact ih (acc * 10 + d) hrest

theorem natDecAux_digits (fuel n : Nat) :
    ∀ c ∈ natDecAux fuel n, (charDigit? c).isSome := by
  induction fuel generalizing n with
  | zero => intro c hc; simp [natDecAux] at hc
  | succ f ih =>
    intro c hc
    match n, hc with
    | 0, hc => simp [natDecAux] at hc
    | m + 1, hc =>
      simp only [natDecAux, List.mem_append, List.mem_singleton] at hc
      rcases hc with hc | hc
      · exact ih ((m + 1) / 10) c hc
      · subst hc
        rw [charDigit_digitChar ((m + 1) % 10) (Nat.mod_lt _ (by omega))]
        rfl

theorem natDecAux_parse (fuel n : Nat) (hf : n < fuel) (acc : Nat) :
    natParseAux acc (natDecAux fuel n) =
      some (acc * 10 ^ (natDecAux fuel n).length + n) := by
  induction fuel generalizing n acc with
  | zero => omega
  | succ f ih =>
    match n with
    | 0 => simp [natDecAux, natParseAux]
    | m + 1 =>
      have hrec : (m + 1) / 10 < f := by omega
      simp only [natDecAux]
      have happ := natParseAux_append acc (natDecAux f ((m + 1) / 10))
        [digitChar ((m + 1) % 10)] (natDecAux_digits f ((m + 1) / 10))
      rw [happ.1, ih ((m + 1) / 10) hrec acc]
      simp only [Option.getD_some, natParseAux,
        charDigit_digitChar ((m + 1) % 10) (Nat.mod_lt _ (by omega))]
      simp only [List.length_append, List.length_singleton]
      congr 1
      rw [pow_succ]
      have : (m + 1) / 10 * 10 + (m + 1) % 10 = m + 1 := by omega
      ring_nf
      omega

theorem natDecAux_ne_nil (n : Nat) (h : n ≠ 0) : natDecAux (n + 1) n ≠ [] := by
  match n, h with
  | m + 1, _ =>
    simp [natDecAux]

/-- Parsing inverts decimal printing on naturals. -/
theorem natParseAux_natDec (n : Nat) : natParseAux 0 (natDec n).data = some n := by
  by_cases h : n = 0
  · subst h; rfl
  · simp only [natDec, if_neg h]
    simpa using natDecAux_parse (n + 1) n (by omega) 0

/-- Parsing inverts decimal printing on integers: the bigint marker payload
decodes to the original BigInt. -/
theorem intParse_intDec (n : Int) : intParse? (intDec n) = some n := by
  by_cases h : n < 0
  · have hab : n.natAbs ≠ 0 := by omega
    simp only [intDec, if_pos h, intParse?]
    have hdec : ("-" ++ natDec n.natAbs).data = '-' :: (natDec n.natAbs).data := by
      simp [String.data_append]
    rw [hdec]
    have hne : (natDec n.natAbs).data ≠ [] := by
      simp only [natDec, if_neg hab]
      exact natDecAux_ne_nil n.natAbs hab
    have hp := natParseAux_natDec n.natAbs
    rcases hd : (natDec n.natAbs).data with _ | ⟨c, cs⟩
    · exact absurd hd hne
    · rw [hd] at hp
      simp [intParseChars, hp, -Int.natCast_natAbs]
      omega
  · simp only [intDec, if_neg h, intParse?]
    have hne0 : ¬ ((natDec n.toNat).data = []) := by
      by_cases hz : n.toNat = 0
      · simp [natDec, hz]
      · simp only [natDec, if_neg hz]
        exact natDecAux_ne_nil n.toNat hz
    have hnm : ∀ c ∈ (natDec n.toNat).data, c ≠ '-' := by
      intro c hc
      have hdig : (charDigit? c).isSome := by
        by_cases hz : n.toNat = 0
        · simp [natDec, hz] at hc
          subst hc; rfl
        · simp only [natDec, if_neg hz] at hc
          exact natDecAux_digits (n.toNat + 1) n.toNat c hc
      intro hcm
      subst hcm
      exact absurd hdig (by decide)
    have hp := natParseAux_natDec n.toNat
    rcases hd : (natDec n.toNat).data with _ | ⟨c, cs⟩
    · exact absurd hd hne0
    · have hcne : c ≠ '-' := hnm c (by rw [hd]; simp)
      rw [hd] at hp
      simp [intParseChars, hcne, hp]
      omega

/-! ## Checksum (SerializationHelpers.js `calculateChecksum` / `verifyChecksum`) -/

/-- Wrap an integer to signed 32 bits, as the JS expressions `x << 5` and
`x & x` do (ToInt32). -/
def toInt32 (n : Int) : Int :=
  let m := n % 4294967296
  if m ≥ 2147483648 then m - 4294967296 else m

/-- One step of the rolling hash:
`hash = ((hash << 5) - hash) + char; hash = hash & hash`. -/
def checksumStep (h : Int) (c : Char) : Int :=
  toInt32 (toInt32 (32 * h) - h + (c.toNat : Int))

def checksumHash (s : String) : Int := s.data.foldl checksumStep 0

def hexDigitChar : Nat → Char
  | 0 => '0'
  | 1 => '1'
  | 2 => '2'
  | 3 => '3'
  | 4 => '4'
  | 5 => '5'
  | 6 => '6'
  | 7 => '7'
  | 8 => '8'
  | 9 => '9'
  | 10 => 'a'
  | 11 => 'b'
  | 12 => 'c'
  | 13 => 'd'
  | 14 => 'e'
  | _ => 'f'

/-- Lowercase hexadecimal digit string of a natural number, with fuel
(models `Number.prototype.toString(16)` on the absolute value). -/
def natHexAux : Nat → Nat → List Char
  | 0, _ => []
  | _ + 1, 0 => []
  | fuel + 1, n => natHexAux fuel (n / 16) ++ [hexDigitChar (n % 16)]

def natHex (n : Nat) : String :=
  if n = 0 then "0" else String.mk (natHexAux (n + 1) n)

/-- JS `Number.prototype.toString(16)` on an integer: a leading minus sign
followed by the hex digits of the absolute value. -/
def intHex (n : Int) : String :=
  if n < 0 then "-" ++ natHex n.natAbs else natHex n.toNat

/-- `calculateChecksum` from SerializationHelpers.js: the tagged rolling hash
of the serialized JSON string. -/
def calculateChecksum (data : String) : String := "simple:" ++ intHex (checksumHash data)

/-- `verifyChecksum` from SerializationHelpers.js. -/
def verifyChecksum (data expectedChecksum : String) : Bool :=
  calculateChecksum data == expectedChecksum

/-! ## JSON stringification (JSON.stringify without replacer)

`ArtifactSerializer.serialize` and `ArtifactValidator._validateChecksum` both
feed `JSON.stringify(artifact.entities)` — with no replacer — to
`calculateChecksum`.  The embedding renders values the way the host JSON
serializer does on values this engine produces: a live Date is rendered via
`Date.prototype.toJSON` as its quoted ISO string.  The host throws a
TypeError on a live BigInt and renders class instances from their enumerable
properties; neither occurs on a checksummed artifact wire, and both are
rendered here as fixed sentinel strings. -/

def jsonEscapeChar (c : Char) : List Char :=
  if c = '"' then ['\\', '"'] else if c = '\\' then ['\\', '\\'] else [c]

def quoteStr (s : String) : String :=
  "\"" ++ String.mk (s.data.map jsonEscapeChar).flatten ++ "\""

mutual

def stringifyV : Value → String
  | .vnull => "null"
  | .vbool true => "true"
  | .vbool false => "false"
  | .vnum n => intDec n
  | .vstr s => quoteStr s
  | .vbigint _ => "!bigint"
  | .vdate iso => quoteStr iso
  | .ventity _ => "!entity"
  | .varr xs => "[" ++ stringifyList xs ++ "]"
  | .vobj fs => "\x7b" ++ stringifyFields fs ++ "\x7d"

def stringifyList : List Value → String
  | [] => ""
  | [x] => stringifyV x
  | x :: y :: xs => stringifyV x ++ "," ++ stringifyList (y :: xs)

def stringifyFields : List (String × Value) → String
  | [] => ""
  | [(k, x)] => quoteStr k ++ ":" ++ stringifyV x
  | (k, x) :: p :: fs => quoteStr k ++ ":" ++ stringifyV x ++ "," ++ stringifyFields (p :: fs)

end

/-! ## Artifact data model -/

/-- A serialized entity record: `\x7b id, [componentName]: data \x7d` as built by
`ArtifactSerializer._serializeEntity`. -/
structure Rec where
  id : String
  comps : List (String × Value)
deriving Repr, DecidableEq

/-- The record viewed as the plain JS object it is on the wire. -/
def recToObj (r : Rec) : Value := .vobj (("id", .vstr r.id) :: r.comps)

/-- Artifact metadata (`ArtifactSerializer._createMetadata`).  The optional
`schemaVersion` field mirrors documents that may lack it (legacy version 0).
The caller-supplied `metadata` extension spread is not modelled (its default
is the empty object). -/
structure Meta where
  version : String
  schemaVersion : Option Int
  timestamp : Int
  gameVersion : Option String
  checksum : Option String
deriving Repr, DecidableEq

/-- An artifact document.  A `none` entry in `entities` models the JS `null`
pushed by `_serializeEntity` for a non-serializable entity. -/
structure Artifact where
  entities : List (Option Rec)
  meta : Option Meta
deriving Repr, DecidableEq

/-- `JSON.stringify(artifact.entities)`: the string hashed by both the
serializer and the validator. -/
def stringifyEntities (es : List (Option Rec)) : String :=
  stringifyV (.varr (es.map (fun o =>
    match o with
    | some r => recToObj r
    | none => .vnull)))

/-- `CURRENT_SCHEMA_VERSION` from src/serialization/constants.js. -/
def CURRENT_SCHEMA_VERSION : Int := 1

/-! ## Migration registry (SerializationHelpers.js `MigrationRegistry`)

The registry is a `Map` of `Map`s in JS; both levels preserve insertion
order, which the BFS tie-break depends on, so they are embedded as
association lists with `Map.set` semantics. -/

/-- One step of a migration path (`\x7b from, to \x7d`). -/
structure MStep where
  fromV : Int
  toV : Int
deriving Repr, DecidableEq

/-- JS `Map.prototype.get`. -/
def mapGet? {α : Type} (m : List (Int × α)) (k : Int) : Option α :=
  match m.find? (fun p => p.1 == k) with
  | some p => some p.2
  | none => none

/-- JS `Map.prototype.set`: overwrite in place, else append (insertion order
is preserved). -/
def mapSet {α : Type} (m : List (Int × α)) (k : Int) (v : α) : List (Int × α) :=
  match m with
  | [] => [(k, v)]
  | (k2, v2) :: rest => if k2 = k then (k, v) :: rest else (k2, v2) :: mapSet rest k v

structure MigrationRegistry where
  migrations : List (Int × List (Int × (Artifact → Artifact)))

def MigrationRegistry.empty : MigrationRegistry := ⟨[]⟩

/-- `MigrationRegistry.register`.  (The JS guard that the migration argument
is callable is vacuous here: every embedded transform is a function.) -/
def MigrationRegistry.register (reg : MigrationRegistry) (fromVersion toVersion : Int)
    (migrationFn : Artifact → Artifact) : MigrationRegistry :=
  match mapGet? reg.migrations fromVersion with
  | none => ⟨mapSet reg.migrations fromVersion [(toVersion, migrationFn)]⟩
  | some inner => ⟨mapSet reg.migrations fromVersion (mapSet inner toVersion migrationFn)⟩

/-- The inner loop of `_findMigrationPath`: scan the outgoing migrations of
`version` in insertion order, skipping visited targets, returning the found
path or the grown (queue, visited). -/
def processOutgoing (toVersion version : Int) (path : List MStep) :
    List (Int × (Artifact → Artifact)) → List Int → List (Int × List MStep) →
      Option (List MStep) × List Int × List (Int × List MStep)
  | [], visited, queue => (none, visited, queue)
  | (nextVersion, _) :: rest, visited, queue =>
    if nextVersion ∈ visited then processOutgoing toVersion version path rest visited queue
    else
      let newPath := path ++ [⟨version, nextVersion⟩]
      if nextVersion = toVersion then (some newPath, visited, queue)
      else
        processOutgoing toVersion version path rest (visited ++ [nextVersion])
          (queue ++ [(nextVersion, newPath)])

/-- The BFS `while (queue.length > 0)` loop of `_findMigrationPath`, with
fuel.  Each iteration dequeues one entry; a version is enqueued only when
first visited, so `1 + total edge count` iterations always suffice. -/
def bfsLoop (reg : MigrationRegistry) (toVersion : Int) :
    Nat → List (Int × List MStep) → List Int → List MStep
  | 0, _, _ => []
  | _ + 1, [], _ => []
  | fuel + 1, (version, path) :: queueRest, visited =>
    match mapGet? reg.migrations version with
    | none => bfsLoop reg toVersion fuel queueRest visited
    | some outgoingMigrations =>
      match processOutgoing toVersion version path outgoingMigrations visited queueRest with
      | (some newPath, _, _) => newPath
      | (none, visited2, queue2) => bfsLoop reg toVersion fuel queue2 visited2

def MigrationRegistry.fuel (reg : MigrationRegistry) : Nat :=
  1 + reg.migrations.foldl (fun n p => n + p.2.length) 0

/-- `MigrationRegistry._findMigrationPath`: shortest path by BFS, ties broken
by edge registration order; empty when `fromVersion == toVersion` or no path
exists. -/
def MigrationRegistry.findMigrationPath (reg : MigrationRegistry)
    (fromVersion toVersion : Int) : List MStep :=
  if fromVersion = toVersion then []
  else bfsLoop reg toVersion reg.fuel [(fromVersion, [])] [fromVersion]

/-- `MigrationRegistry.hasMigration`. -/
def MigrationRegistry.hasMigration (reg : MigrationRegistry)
    (fromVersion toVersion : Int) : Bool :=
  (reg.findMigrationPath fromVersion toVersion).length > 0

/-- `artifact.meta?.schemaVersion ?? 0`, the resolved source version. -/
def Artifact.sourceVersion (a : Artifact) : Int :=
  match a.meta with
  | some m =>
    match m.schemaVersion with
    | some v => v
    | none => 0
  | none => 0

/-- After a migration step: `if (migratedArtifact.meta) \x7b
migratedArtifact.meta.schemaVersion = step.to \x7d` — the target version is
force-written onto whatever meta object exists; no meta block is fabricated. -/
def applyStepVersion (a : Artifact) (toV : Int) : Artifact :=
  match a.meta with
  | some m => { a with meta := some { m with schemaVersion := some toV } }
  | none => a

/-- The `for (const step of path)` loop of `migrate`.  The lookups cannot
fail on a path produced by `_findMigrationPath`; the error arm is
unreachable and exists only for totality. -/
def migrateLoop (reg : MigrationRegistry) : Artifact → List MStep → Except String Artifact
  | a, [] => .ok a
  | a, step :: rest =>
    match mapGet? reg.migrations step.fromV with
    | none => .error "unreachable: path step without registered migration"
    | some inner =>
      match mapGet? inner step.toV with
      | none => .error "unreachable: path step without registered migration"
      | some migrationFn => migrateLoop reg (applyStepVersion (migrationFn a) step.toV) rest

/-- `MigrationRegistry.migrate` (target defaults to
`CURRENT_SCHEMA_VERSION` at the call site). -/
def MigrationRegistry.migrate (reg : MigrationRegistry) (artifact : Artifact)
    (targetVersion : Int) : Except String Artifact :=
  let sourceVersion := artifact.sourceVersion
  if sourceVersion = targetVersion then .ok artifact
  else
    let path := reg.findMigrationPath sourceVersion targetVersion
    if path.length = 0 then
      .error ("No migration path from version " ++ intDec sourceVersion ++ " to " ++
        intDec targetVersion)
    else migrateLoop reg artifact path

/-! ## Migration theorems -/

/-- C9: when the resolved source version (`meta.schemaVersion`, defaulting to
0 when `meta` or the field is absent) equals the target version, `migrate`
returns the very input artifact, for every registry whatsoever — hence no
transform is consulted. -/
theorem migrate_same_version_identity (reg : MigrationRegistry) (a : Artifact)
    (t : Int) (h : a.sourceVersion = t) :
    reg.migrate a t = .ok a := by
  simp [MigrationRegistry.migrate, h]

theorem migrate_same_version_identity_witness :
    MigrationRegistry.empty.migrate ⟨[], none⟩ 0 = .ok ⟨[], none⟩ :=
  migrate_same_version_identity MigrationRegistry.empty ⟨[], none⟩ 0 rfl

/-- C10: `hasMigration v v` is false for every registry state — the path
search returns the empty path when source and target coincide and
`hasMigration` demands a non-empty one — even though `migrate` of an
artifact already at `v` to target `v` succeeds by returning its input. -/
theorem hasMigration_irreflexive (reg : MigrationRegistry) (v : Int) (a : Artifact)
    (h : a.sourceVersion = v) :
    reg.hasMigration v v = false ∧ reg.migrate a v = .ok a := by
  constructor
  · simp [MigrationRegistry.hasMigration, MigrationRegistry.findMigrationPath]
  · simp [MigrationRegistry.migrate, h]

theorem hasMigration_irreflexive_witness :
    ((MigrationRegistry.empty.register 0 1 id).register 1 0 id).hasMigration 0 0 = false ∧
      ((MigrationRegistry.empty.register 0 1 id).register 1 0 id).migrate ⟨[], none⟩ 0 =
        .ok ⟨[], none⟩ :=
  hasMigration_irreflexive ((MigrationRegistry.empty.register 0 1 id).register 1 0 id)
    0 ⟨[], none⟩ rfl

/-- C7: with edges 0→1 and 1→2 registered, `hasMigration 0 2` holds, and
migrating a version-0 artifact to target 2 applies both transforms in
registration order, force-writing each step target version onto whatever
meta object the transform returned (and fabricating no meta block when the
transform returned none); a direct edge is preferred when shorter and
first-registered edges win ties; with no path, `migrate` raises an error
naming both versions. -/
theorem migrate_bfs_chain (f g h k : Artifact → Artifact) (a : Artifact)
    (ha : a.sourceVersion = 0) :
    ((MigrationRegistry.empty.register 0 1 f).register 1 2 g).hasMigration 0 2 = true ∧
    ((MigrationRegistry.empty.register 0 1 f).register 1 2 g).migrate a 2 =
      .ok (applyStepVersion (g (applyStepVersion (f a) 1)) 2) ∧
    (∀ x : Artifact, ∀ m : Meta, x.meta = some m →
      (applyStepVersion x 2).sourceVersion = 2) ∧
    (∀ x : Artifact, x.meta = none → applyStepVersion x 2 = x) ∧
    (((MigrationRegistry.empty.register 0 1 f).register 1 2 g).register 0 2 h
      |>.findMigrationPath 0 2) = [⟨0, 2⟩] ∧
    ((((MigrationRegistry.empty.register 0 1 f).register 0 3 h).register 1 2 g).register 3 2 k
      |>.findMigrationPath 0 2) = [⟨0, 1⟩, ⟨1, 2⟩] ∧
    (∀ b : Artifact, ∀ t : Int, b.sourceVersion ≠ t →
      MigrationRegistry.empty.migrate b t =
        .error ("No migration path from version " ++ intDec b.sourceVersion ++ " to " ++
          intDec t)) := by
  refine ⟨rfl, ?_, ?_, ?_, rfl, rfl, ?_⟩
  · have hne : (0 : Int) ≠ 2 := by decide
    simp only [MigrationRegistry.migrate, ha, if_neg hne]
    rfl
  · intro x m hm
    simp [applyStepVersion, hm, Artifact.sourceVersion]
  · intro x hx
    simp [applyStepVersion, hx]
  · intro b t hbt
    simp only [MigrationRegistry.migrate, if_neg hbt, MigrationRegistry.findMigrationPath,
      if_neg hbt]
    rfl

theorem migrate_bfs_chain_witness :
    ((MigrationRegistry.empty.register 0 1 id).register 1 2 id).hasMigration 0 2 = true ∧
    ((MigrationRegistry.empty.register 0 1 id).register 1 2 id).migrate
        ⟨[], some ⟨"1.0.0", some 0, 0, none, none⟩⟩ 2 =
      .ok (applyStepVersion (id (applyStepVersion
        (id (⟨[], some ⟨"1.0.0", some 0, 0, none, none⟩⟩ : Artifact)) 1)) 2) ∧
    (applyStepVersion ⟨[], some ⟨"1.0.0", some 0, 0, none, none⟩⟩ 2).sourceVersion = 2 ∧
    applyStepVersion ⟨[], none⟩ 2 = (⟨[], none⟩ : Artifact) ∧
    (((MigrationRegistry.empty.register 0 1 id).register 1 2 id).register 0 2 id
      |>.findMigrationPath 0 2) = [⟨0, 2⟩] ∧
    ((((MigrationRegistry.empty.register 0 1 id).register 0 3 id).register 1 2 id).register 3 2 id
      |>.findMigrationPath 0 2) = [⟨0, 1⟩, ⟨1, 2⟩] ∧
    MigrationRegistry.empty.migrate ⟨[], none⟩ 2 =
      .error ("No migration path from version " ++ intDec (0 : Int) ++ " to " ++
        intDec (2 : Int)) := by
  have T := migrate_bfs_chain id id id id ⟨[], some ⟨"1.0.0", some 0, 0, none, none⟩⟩ rfl
  exact ⟨T.1, T.2.1, T.2.2.1 _ ⟨"1.0.0", some 0, 0, none, none⟩ rfl, T.2.2.2.1 _ rfl,
    T.2.2.2.2.1, T.2.2.2.2.2.1, T.2.2.2.2.2.2 ⟨[], none⟩ 2 (by decide)⟩

/-! ## Validator (ArtifactValidator.js)

The three `INVALID_STRUCTURE` raises of `_validateStructure` reject inputs
that are not an object, lack an `entities` array, or carry a non-object
`meta`; every value of the `Artifact` type satisfies all three by
construction, so the embedded structural check always succeeds. -/

structure ValidationError where
  message : String
  code : String
deriving Repr, DecidableEq

/-- Validator options with their constructor defaults
(`validateChecksum: true, validateComponents: true, validateReferences: true,
strictVersion: false`). -/
structure VOptions where
  validateChecksum : Bool
  validateComponents : Bool
  validateReferences : Bool
  strictVersion : Bool
deriving Repr, DecidableEq

def VOptions.default : VOptions := ⟨true, true, true, false⟩

/-- A registered component class: the statics the artifact engine reads
(`allowMultiple`, `keyProperty`, `properties` with their default values). -/
structure CompClass where
  allowMultiple : Bool
  keyProperty : Option String
  properties : List (String × Value)
deriving Repr, DecidableEq

/-- The component registry surface (`engine._components.get(name)`), keyed by
the camelised component name as stored on entities and in artifacts
(`camelString` is the identity on such names). -/
def CompRegistry : Type := List (String × CompClass)

def regGet? (reg : CompRegistry) (name : String) : Option CompClass :=
  match reg.find? (fun p => p.1 == name) with
  | some p => some p.2
  | none => none

/-- `_validateStructure` (always satisfied on representable artifacts, see
the section comment). -/
def validateStructure (_artifact : Artifact) : Except ValidationError Unit := .ok ()

/-- `artifact.meta?.checksum` as the gate expression of `validate` reads it. -/
def metaChecksum? (a : Artifact) : Option String :=
  match a.meta with
  | some m => m.checksum
  | none => none

/-- `_validateChecksum`, reached only when `artifact.meta?.checksum` is
truthy: recompute over `JSON.stringify(artifact.entities)` and compare. -/
def validateChecksumStep (a : Artifact) (expected : String) : Except ValidationError Unit :=
  let dataStr := stringifyEntities a.entities
  let calculatedChecksum := calculateChecksum dataStr
  if calculatedChecksum ≠ expected then
    .error ⟨"Checksum mismatch - artifact may be corrupted", "CHECKSUM_MISMATCH"⟩
  else .ok ()

/-- `_validateSchemaVersion`.  Note the source checks `strictVersion`
*before* the newer-than-supported check. -/
def validateSchemaVersion (strictVersion : Bool) (a : Artifact) : Except ValidationError Unit :=
  let schemaVersion := a.sourceVersion
  if strictVersion ∧ schemaVersion ≠ CURRENT_SCHEMA_VERSION then
    .error ⟨"Schema version mismatch: expected " ++ intDec CURRENT_SCHEMA_VERSION ++
      ", got " ++ intDec schemaVersion, "VERSION_MISMATCH"⟩
  else if schemaVersion > CURRENT_SCHEMA_VERSION then
    .error ⟨"Artifact schema version " ++ intDec schemaVersion ++
      " is newer than supported version " ++ intDec CURRENT_SCHEMA_VERSION, "VERSION_TOO_NEW"⟩
  else .ok ()

/-- The entity loop of `_validateEntities`: a `null` record is not an object;
a falsy (empty) id is missing; a repeated id is a duplicate. -/
def validateEntitiesLoop (entityIds : List String) :
    List (Option Rec) → Except ValidationError Unit
  | [] => .ok ()
  | none :: _ => .error ⟨"Entity must be an object", "INVALID_ENTITY"⟩
  | some r :: rest =>
    if r.id = "" then .error ⟨"Entity must have an id", "MISSING_ENTITY_ID"⟩
    else if r.id ∈ entityIds then
      .error ⟨"Duplicate entity ID: " ++ r.id, "DUPLICATE_ENTITY_ID"⟩
    else validateEntitiesLoop (entityIds ++ [r.id]) rest

def validateEntities (a : Artifact) : Except ValidationError Unit :=
  validateEntitiesLoop [] a.entities

/-- The component-name loop of `_validateComponents` for one record. -/
def validateComponentsRec (reg : CompRegistry) : List (String × Value) →
    Except ValidationError Unit
  | [] => .ok ()
  | (componentName, _) :: rest =>
    match regGet? reg componentName with
    | none => .error ⟨"Unknown component type: " ++ componentName, "UNKNOWN_COMPONENT"⟩
    | some _ => validateComponentsRec reg rest

/-- `_validateComponents`.  A `null` record would throw on destructuring in
JS; it is unreachable because `_validateEntities` has already rejected it,
and is skipped here for totality. -/
def validateComponents (reg : CompRegistry) (a : Artifact) : Except ValidationError Unit :=
  go a.entities
where
  go : List (Option Rec) → Except ValidationError Unit
    | [] => .ok ()
    | none :: rest => go rest
    | some r :: rest => do
      validateComponentsRec reg r.comps
      go rest

/-- String coercion used in template-literal error messages.  Only strings
and numbers reach the messages stated about in this file. -/
def jsDisplay : Value → String
  | .vstr s => s
  | .vnum n => intDec n
  | .vbigint n => intDec n
  | .vbool true => "true"
  | .vbool false => "false"
  | .vnull => "null"
  | _ => "[object Object]"

/-- `artifact.entities.map(e => e.id)` building the valid-id set; a `null`
record is unreachable here (rejected by `_validateEntities` first). -/
def validIdsOf (a : Artifact) : List String :=
  a.entities.filterMap (fun o => o.map (fun r => r.id))

mutual

/-- `_validateValueReferences`: an object with a truthy ref-marker field is
checked as a reference (and not recursed into); arrays and plain objects are
recursed; anything else passes. -/
def validateValueReferences (validIds : List String) : Value → Except ValidationError Unit
  | .vobj fs =>
    match jsLookup fs refMarkerKey with
    | some f =>
      if jsTruthy f then
        match f with
        | .vstr rid =>
          if rid ∈ validIds then .ok ()
          else .error ⟨"Invalid entity reference: " ++ rid, "INVALID_REFERENCE"⟩
        | other =>
          .error ⟨"Invalid entity reference: " ++ jsDisplay other, "INVALID_REFERENCE"⟩
      else validateFieldsReferences validIds fs
    | none => validateFieldsReferences validIds fs
  | .varr xs => validateListReferences validIds xs
  | _ => .ok ()

def validateListReferences (validIds : List String) :
    List Value → Except ValidationError Unit
  | [] => .ok ()
  | x :: xs => do
    validateValueReferences validIds x
    validateListReferences validIds xs

def validateFieldsReferences (validIds : List String) :
    List (String × Value) → Except ValidationError Unit
  | [] => .ok ()
  | (_, x) :: fs => do
    validateValueReferences validIds x
    validateFieldsReferences validIds fs

end

/-- `_validateReferences`: every ref marker anywhere in the document must
target an id present in the document itself. -/
def validateReferences (a : Artifact) : Except ValidationError Unit :=
  go (validIdsOf a) a.entities
where
  go (validIds : List String) : List (Option Rec) → Except ValidationError Unit
    | [] => .ok ()
    | none :: rest => go validIds rest
    | some r :: rest => do
      validateFieldsReferences validIds r.comps
      go validIds rest

/-- `ArtifactValidator.validate`: fail-fast sequencing in source order —
structure, checksum (when enabled and a truthy `meta.checksum` exists),
schema version, entity shape and id uniqueness, component types (when
enabled), references (when enabled). -/
def validate (reg : CompRegistry) (opts : VOptions) (artifact : Artifact) :
    Except ValidationError Unit := do
  validateStructure artifact
  match metaChecksum? artifact with
  | some c => if opts.validateChecksum ∧ c ≠ "" then validateChecksumStep artifact c else pure ()
  | none => pure ()
  validateSchemaVersion opts.strictVersion artifact
  validateEntities artifact
  if opts.validateComponents then validateComponents reg artifact else pure ()
  if opts.validateReferences then validateReferences artifact else pure ()

/-! ## Validator theorems -/

/-- C5 counterexample: a schema version greater than the current supported
version (2 > 1), validated with `strictVersion` enabled, fails with code
`VERSION_MISMATCH` — not `VERSION_TOO_NEW` as claimed — because the strict
check runs first. -/
theorem version_gating_counterexample :
    validate [] ⟨true, true, true, true⟩ ⟨[], some ⟨"1.0.0", some 2, 0, none, none⟩⟩ =
      .error ⟨"Schema version mismatch: expected 1, got 2", "VERSION_MISMATCH"⟩ ∧
    "VERSION_MISMATCH" ≠ "VERSION_TOO_NEW" := by
  refine ⟨rfl, by decide⟩

/-- C5 amended: with `strictVersion` disabled a version above the current
one fails `VERSION_TOO_NEW`; with `strictVersion` enabled any version other
than the current fails `VERSION_MISMATCH` (this branch wins even above the
current version); with `strictVersion` disabled a version at or below the
current one passes the version check.  The version is
`meta.schemaVersion ?? 0` (`Artifact.sourceVersion`). -/
theorem version_gating (strict : Bool) (a : Artifact) :
    (strict = false → CURRENT_SCHEMA_VERSION < a.sourceVersion →
      validateSchemaVersion strict a =
        .error ⟨"Artifact schema version " ++ intDec a.sourceVersion ++
          " is newer than supported version " ++ intDec CURRENT_SCHEMA_VERSION,
          "VERSION_TOO_NEW"⟩) ∧
    (strict = true → a.sourceVersion ≠ CURRENT_SCHEMA_VERSION →
      validateSchemaVersion strict a =
        .error ⟨"Schema version mismatch: expected " ++ intDec CURRENT_SCHEMA_VERSION ++
          ", got " ++ intDec a.sourceVersion, "VERSION_MISMATCH"⟩) ∧
    (strict = false → a.sourceVersion ≤ CURRENT_SCHEMA_VERSION →
      validateSchemaVersion strict a = .ok ()) := by
  refine ⟨?_, ?_, ?_⟩
  · intro hs hv
    subst hs
    simp only [validateSchemaVersion]
    rw [if_neg (by simp), if_pos hv]
  · intro hs hv
    subst hs
    simp only [validateSchemaVersion]
    rw [if_pos (by simpa using hv)]
  · intro hs hv
    subst hs
    simp only [validateSchemaVersion]
    rw [if_neg (by simp), if_neg (by omega)]

theorem version_gating_witness :
    validateSchemaVersion false ⟨[], some ⟨"1.0.0", some 2, 0, none, none⟩⟩ =
      .error ⟨"Artifact schema version 2 is newer than supported version 1",
        "VERSION_TOO_NEW"⟩ ∧
    validateSchemaVersion true ⟨[], some ⟨"1.0.0", some 2, 0, none, none⟩⟩ =
      .error ⟨"Schema version mismatch: expected 1, got 2", "VERSION_MISMATCH"⟩ ∧
    validateSchemaVersion false ⟨[], none⟩ = .ok () :=
  ⟨(version_gating false ⟨[], some ⟨"1.0.0", some 2, 0, none, none⟩⟩).1 rfl (by decide),
   (version_gating true ⟨[], some ⟨"1.0.0", some 2, 0, none, none⟩⟩).2.1 rfl (by decide),
   (version_gating false ⟨[], none⟩).2.2 rfl (by decide)⟩

/-- C6 counterexample: a component name absent from the registry fails with
machine code `UNKNOWN_COMPONENT`, not `UNKNOWN_FIELD_GROUP` as claimed. -/
theorem validate_unknown_code_counterexample :
    validate [] VOptions.default ⟨[some ⟨"e1", [("ghost", .vobj [])]⟩], none⟩ =
      .error ⟨"Unknown component type: ghost", "UNKNOWN_COMPONENT"⟩ ∧
    "UNKNOWN_COMPONENT" ≠ "UNKNOWN_FIELD_GROUP" := by
  refine ⟨rfl, by decide⟩

/-- C6 amended: `validate` raises on the first violation in the order
structure, checksum, schema version, entity shape and id uniqueness,
component types, references; an empty id fails `MISSING_ENTITY_ID`, a
repeated id fails `DUPLICATE_ENTITY_ID`, an unregistered component name
fails `UNKNOWN_COMPONENT`, and an unresolvable ref marker fails
`INVALID_REFERENCE`.  The ordering is witnessed by artifacts violating two
checks at once: a bad checksum beats a too-new version, a too-new version
beats a missing id, and an unknown component beats a dangling reference. -/
theorem validate_fail_fast_codes :
    (∀ (reg : CompRegistry) (cs : List (String × Value)) (rest : List (Option Rec)),
      validate reg VOptions.default ⟨some ⟨"", cs⟩ :: rest, none⟩ =
        .error ⟨"Entity must have an id", "MISSING_ENTITY_ID"⟩) ∧
    (∀ (reg : CompRegistry) (cs : List (String × Value)) (rest : List (Option Rec)),
      validate reg VOptions.default ⟨some ⟨"a", []⟩ :: some ⟨"a", cs⟩ :: rest, none⟩ =
        .error ⟨"Duplicate entity ID: a", "DUPLICATE_ENTITY_ID"⟩) ∧
    (∀ (reg : CompRegistry) (name : String) (v : Value),
      regGet? reg name = none →
      validate reg VOptions.default ⟨[some ⟨"e", [(name, v)]⟩], none⟩ =
        .error ⟨"Unknown component type: " ++ name, "UNKNOWN_COMPONENT"⟩) ∧
    (∀ rid : String, rid ≠ "" → rid ≠ "e" →
      validate [("stat", ⟨false, none, [("t", .vnull)]⟩)] VOptions.default
          ⟨[some ⟨"e", [("stat", .vobj [("t", refMarker rid)])]⟩], none⟩ =
        .error ⟨"Invalid entity reference: " ++ rid, "INVALID_REFERENCE"⟩) ∧
    validate [] VOptions.default ⟨[], some ⟨"1.0.0", some 99, 0, none, some "bogus"⟩⟩ =
      .error ⟨"Checksum mismatch - artifact may be corrupted", "CHECKSUM_MISMATCH"⟩ ∧
    validate [] VOptions.default ⟨[some ⟨"", []⟩], some ⟨"1.0.0", some 99, 0, none, none⟩⟩ =
      .error ⟨"Artifact schema version 99 is newer than supported version 1",
        "VERSION_TOO_NEW"⟩ ∧
    validate [] VOptions.default
        ⟨[some ⟨"e", [("ghost", .vobj [("t", refMarker "zz")])]⟩], none⟩ =
      .error ⟨"Unknown component type: ghost", "UNKNOWN_COMPONENT"⟩ := by
  refine ⟨?_, ?_, ?_, ?_, rfl, rfl, rfl⟩
  · intro reg cs rest
    rfl
  · intro reg cs rest
    rfl
  · intro reg name v hreg
    simp [validate, validateComponents, validateComponents.go, validateComponentsRec, hreg]
    rfl
  · intro rid hne hne2
    simp [validate, validateComponents, validateComponents.go, validateComponentsRec,
      regGet?, validateReferences, validateReferences.go, validIdsOf,
      validateFieldsReferences, validateValueReferences, refMarker, refMarkerKey,
      jsLookup, jsTruthy, hne, hne2]
    rfl

theorem validate_fail_fast_codes_witness :
    validate [] VOptions.default ⟨[some ⟨"", []⟩], none⟩ =
      .error ⟨"Entity must have an id", "MISSING_ENTITY_ID"⟩ ∧
    validate [] VOptions.default ⟨[some ⟨"a", []⟩, some ⟨"a", []⟩], none⟩ =
      .error ⟨"Duplicate entity ID: a", "DUPLICATE_ENTITY_ID"⟩ ∧
    validate [] VOptions.default ⟨[some ⟨"e", [("ghost", .vnull)]⟩], none⟩ =
      .error ⟨"Unknown component type: ghost", "UNKNOWN_COMPONENT"⟩ ∧
    validate [("stat", ⟨false, none, [("t", .vnull)]⟩)] VOptions.default
        ⟨[some ⟨"e", [("stat", .vobj [("t", refMarker "sword")])]⟩], none⟩ =
      .error ⟨"Invalid entity reference: sword", "INVALID_REFERENCE"⟩ := by
  have T := validate_fail_fast_codes
  exact ⟨T.1 [] [] [], T.2.1 [] [] [], T.2.2.1 [] "ghost" .vnull rfl,
    T.2.2.2.1 "sword" (by decide) (by decide)⟩

/-! ## Live world model

Live entities are identified by id (the round-trip property is stated with
ids standing in for identity).  A component instance is its property map;
by the `Component` constructor (`Object.assign(this,
this.constructor.properties, properties)`) an instance carries exactly the
declared property keys, in declaration order.  A live entity reference in a
component value (`ventity id`) designates the live entity with that id. -/

/-- The three shapes of `entity.components[key]`: a single `Component`
instance, an array of instances (`allowMultiple` without `keyProperty`),
or a keyed plain object of instances (`allowMultiple` with `keyProperty`). -/
inductive CompStore where
  | single (c : List (String × Value)) : CompStore
  | many (cs : List (List (String × Value))) : CompStore
  | keyed (cs : List (String × List (String × Value))) : CompStore
deriving Repr, DecidableEq

structure Ent where
  id : String
  serializable : Bool
  comps : List (String × CompStore)
deriving Repr, DecidableEq

/-- Look up a live entity by id (`world.getEntity`). -/
def findEnt? (world : List Ent) (id : String) : Option Ent :=
  world.find? (fun e => e.id == id)

/-! ## Serializer (ArtifactSerializer, the reference-aware version)

Options carry the fields the serializer reads; the `filter`,
`beforeSerialize` and `afterSerialize` hooks keep their null defaults
(no-ops), and the caller-supplied `metadata` spread keeps its empty default. -/

structure SOptions where
  entities : Option (List Ent)
  excludeTransient : Bool
  excludeComponents : List String
  onlyComponents : Option (List String)
  resolveReferences : Bool
  maxDepth : Nat
  includeMetadata : Bool
  checksum : Bool
  schemaVersion : Int
  gameVersion : Option String
deriving Repr, DecidableEq

/-- `DEFAULT_SERIALIZE_OPTIONS` (constants.js), restricted to the carried
fields. -/
def SOptions.default : SOptions :=
  ⟨none, true, [], none, false, 3, true, false, CURRENT_SCHEMA_VERSION, none⟩

/-- `this.referencedEntities.add(entity)`: a JS `Set` keeps first-insertion
order and ignores re-insertions (world ids are unique, so entity identity
and id agree). -/
def addRef (refs : List String) (id : String) : List String :=
  if id ∈ refs then refs else refs ++ [id]

mutual

/-- `_encodeValue`: a live entity reference becomes a ref marker (and is
recorded as referenced); arrays and plain objects are rewritten
recursively; everything else passes through unchanged. -/
def encodeValue : Value → List String → Value × List String
  | .ventity id, refs => (refMarker id, addRef refs id)
  | .varr xs, refs =>
    let (ys, refs2) := encodeList xs refs
    (.varr ys, refs2)
  | .vobj fs, refs =>
    let (gs, refs2) := encodeFields fs refs
    (.vobj gs, refs2)
  | v, refs => (v, refs)

def encodeList : List Value → List String → List Value × List String
  | [], refs => ([], refs)
  | x :: xs, refs =>
    let (y, refs2) := encodeValue x refs
    let (ys, refs3) := encodeList xs refs2
    (y :: ys, refs3)

def encodeFields : List (String × Value) → List String → List (String × Value) × List String
  | [], refs => ([], refs)
  | (k, x) :: fs, refs =>
    let (y, refs2) := encodeValue x refs
    let (gs, refs3) := encodeFields fs refs2
    ((k, y) :: gs, refs3)

end

/-- `_serializeComponent` iterates `constructor.properties` keys reading
`component[key]`; an instance carries exactly those keys in that order (see
the section comment), so this is the encoding of the instance entries. -/
def serializeComponent (c : List (String × Value)) (refs : List String) :
    List (String × Value) × List String :=
  encodeFields c refs

/-- The three component-value branches of `_serializeEntity` (instance /
array / keyed object). -/
def serializeComponentStore (store : CompStore) (refs : List String) :
    Value × List String :=
  match store with
  | .single c =>
    let (d, refs2) := serializeComponent c refs
    (.vobj d, refs2)
  | .many cs => go cs refs
  | .keyed cs => goKeyed cs refs
where
  go : List (List (String × Value)) → List String → Value × List String
    | [], refs => (.varr [], refs)
    | c :: cs, refs =>
      let (d, refs2) := serializeComponent c refs
      match go cs refs2 with
      | (.varr ds, refs3) => (.varr (.vobj d :: ds), refs3)
      | other => other
  goKeyed : List (String × List (String × Value)) → List String → Value × List String
    | [], refs => (.vobj [], refs)
    | (k, c) :: cs, refs =>
      let (d, refs2) := serializeComponent c refs
      match goKeyed cs refs2 with
      | (.vobj ds, refs3) => (.vobj ((k, .vobj d) :: ds), refs3)
      | other => other

/-- The component loop of `_serializeEntity`, honouring
`excludeComponents` / `onlyComponents`. -/
def serializeEntityComps (opts : SOptions) :
    List (String × CompStore) → List String → List (String × Value) × List String
  | [], refs => ([], refs)
  | (key, store) :: rest, refs =>
    if opts.excludeComponents.contains key then serializeEntityComps opts rest refs
    else if (match opts.onlyComponents with
             | some only => !(only.contains key)
             | none => false) = true then serializeEntityComps opts rest refs
    else
      let (v, refs2) := serializeComponentStore store refs
      let (tail, refs3) := serializeEntityComps opts rest refs2
      ((key, v) :: tail, refs3)

/-- `_serializeEntity`: `null` (here `none`) for a non-serializable entity,
otherwise `\x7b id, ...components \x7d`. -/
def serializeEntity (opts : SOptions) (e : Ent) (refs : List String) :
    Option Rec × List String :=
  if e.serializable then
    let (comps, refs2) := serializeEntityComps opts e.comps refs
    (some ⟨e.id, comps⟩, refs2)
  else (none, refs)

/-- `entities.map(entity => this._serializeEntity(entity))`, threading the
referenced-entity set. -/
def serializeRoots (opts : SOptions) :
    List Ent → List String → List (Option Rec) × List String
  | [], refs => ([], refs)
  | e :: rest, refs =>
    let (r, refs2) := serializeEntity opts e refs
    let (tail, refs3) := serializeRoots opts rest refs2
    (r :: tail, refs3)

/-- `_collectEntities`: the explicit list when given (a JS array is truthy
even when empty), else all world entities; then the transient filter.
The custom `filter` option keeps its null default. -/
def collectEntities (world : List Ent) (opts : SOptions) : List Ent :=
  let entities :=
    match opts.entities with
    | some l => l
    | none => world
  if opts.excludeTransient then entities.filter (fun e => e.serializable) else entities

/-- The per-entity body of the BFS level loop in
`_collectReferencedEntities`: skip visited entities, otherwise include the
entity, serialize it to discover its references, and push the newly
discovered, unvisited ones onto the next level.  A referenced id always
designates a live entity; the `none` lookup arm is unreachable on closed
worlds. -/
def bfsLevel (world : List Ent) (opts : SOptions) :
    List String → List String → List String →
      List Ent × List String × List String × List String
  | [], visited, refs => ([], [], visited, refs)
  | id :: rest, visited, refs =>
    if id ∈ visited then bfsLevel world opts rest visited refs
    else
      let visited2 := visited ++ [id]
      match findEnt? world id with
      | none => bfsLevel world opts rest visited2 refs
      | some e =>
        let (_, refs2) := serializeEntity opts e refs
        let newRefs := refs2.filter (fun r => ¬ r ∈ refs ∧ ¬ r ∈ visited2)
        let (restInc, restNext, visited3, refs3) := bfsLevel world opts rest visited2 refs2
        (e :: restInc, newRefs ++ restNext, visited3, refs3)

/-- The `while (currentLevel.length > 0 && depth < maxDepth)` loop of
`_collectReferencedEntities`; the fuel is the remaining depth budget. -/
def bfsLevels (world : List Ent) (opts : SOptions) :
    Nat → List String → List String → List String → List Ent × List String
  | 0, _, _, refs => ([], refs)
  | fuel + 1, currentLevel, visited, refs =>
    if currentLevel.isEmpty then ([], refs)
    else
      let (inc, next, visited2, refs2) := bfsLevel world opts currentLevel visited refs
      let (incRest, refs3) := bfsLevels world opts fuel next visited2 refs2
      (inc ++ incRest, refs3)

/-- `_collectReferencedEntities`: BFS over referenced-but-not-yet-included
entities, one depth level at a time, up to `maxDepth` levels. -/
def collectReferencedEntities (world : List Ent) (opts : SOptions)
    (refs processed : List String) : List Ent × List String :=
  bfsLevels world opts opts.maxDepth refs processed refs

/-- `_createMetadata` (the caller-supplied metadata spread keeps its empty
default; `Date.now()` is passed in as `now`). -/
def createMetadata (opts : SOptions) (now : Int) : Meta :=
  ⟨"1.0.0", some opts.schemaVersion, now, opts.gameVersion, none⟩

/-- `ArtifactSerializer.serialize`: collect the root set, serialize it,
optionally expand references breadth-first, attach metadata, and attach the
checksum over the stringified entities when requested. -/
def serialize (world : List Ent) (opts : SOptions) (now : Int) : Artifact :=
  let entities := collectEntities world opts
  let processed := entities.map (fun e => e.id)
  let (roots, refs) := serializeRoots opts entities []
  let serializedEntities :=
    if opts.resolveReferences then
      let (additional, _) := collectReferencedEntities world opts refs processed
      let (extra, _) := serializeRoots opts additional refs
      roots ++ extra
    else roots
  let meta :=
    if opts.includeMetadata then some (createMetadata opts now) else none
  let meta :=
    match meta with
    | some m =>
      if opts.checksum then
        some { m with checksum := some (calculateChecksum (stringifyEntities serializedEntities)) }
      else some m
    | none => none
  ⟨serializedEntities, meta⟩

/-! ## Serializer theorems -/

/-- The player→chest→item reference chain of the bounded-expansion
property. -/
def playerEnt : Ent := ⟨"player", true, [("inventory", .single [("chest", .ventity "chest")])]⟩

def chestEnt : Ent := ⟨"chest", true, [("container", .single [("item", .ventity "item")])]⟩

def itemEnt : Ent := ⟨"item", true, [("loot", .single [("name", .vstr "gem")])]⟩

def chainWorld : List Ent := [playerEnt, chestEnt, itemEnt]

/-- Serializing only the player with reference resolution at the given
depth bound. -/
def chainOpts (d : Nat) : SOptions :=
  ⟨some [playerEnt], true, [], none, true, d, false, false, CURRENT_SCHEMA_VERSION, none⟩

/-- C8: with `entities:[player]`, `resolveReferences:true` and `maxDepth:1`
on the chain player→chest→item, the artifact contains exactly the player
and chest records — the chest still referencing the item by a ref marker id
only, the item record not included; `maxDepth:0` expands nothing and
`maxDepth:2` includes the whole chain, one level per depth step. -/
theorem bounded_expansion :
    (serialize chainWorld (chainOpts 1) 0).entities =
      [some ⟨"player", [("inventory", .vobj [("chest", refMarker "chest")])]⟩,
       some ⟨"chest", [("container", .vobj [("item", refMarker "item")])]⟩] ∧
    (serialize chainWorld (chainOpts 0) 0).entities =
      [some ⟨"player", [("inventory", .vobj [("chest", refMarker "chest")])]⟩] ∧
    (serialize chainWorld (chainOpts 2) 0).entities =
      [some ⟨"player", [("inventory", .vobj [("chest", refMarker "chest")])]⟩,
       some ⟨"chest", [("container", .vobj [("item", refMarker "item")])]⟩,
       some ⟨"item", [("loot", .vobj [("name", .vstr "gem")])]⟩] :=
  ⟨rfl, rfl, rfl⟩

/-- C2 counterexample: the digest is a collidable 32-bit rolling hash, so an
artifact whose entities were mutated after checksum computation — here the
entity id changed from "Aa" to "BB", two different serialized strings with
the same digest — passes full validation with checksum checking enabled,
instead of failing with `CHECKSUM_MISMATCH` as claimed for every mutation. -/
theorem checksum_collision_counterexample :
    ([some (⟨"Aa", []⟩ : Rec)] : List (Option Rec)) ≠ [some ⟨"BB", []⟩] ∧
    stringifyEntities [some ⟨"Aa", []⟩] ≠ stringifyEntities [some ⟨"BB", []⟩] ∧
    calculateChecksum (stringifyEntities [some ⟨"Aa", []⟩]) =
      calculateChecksum (stringifyEntities [some ⟨"BB", []⟩]) ∧
    validate [] VOptions.default
      ⟨[some ⟨"BB", []⟩], some ⟨"1.0.0", some 1, 0, none,
        some (calculateChecksum (stringifyEntities [some ⟨"Aa", []⟩]))⟩⟩ = .ok () := by
  refine ⟨by decide, by decide, rfl, rfl⟩

/-- C2 amended: with `checksum` and `includeMetadata` enabled, `serialize`
stores in `meta.checksum` the digest of exactly the stringified entities
array (computed before the checksum field is attached, so the digest never
covers itself or any meta field); validating the unmodified artifact passes
the checksum check; and a mutation fails with `CHECKSUM_MISMATCH` exactly
when it changes the recomputed digest — digest collisions pass. -/
theorem checksum_validation (world : List Ent) (opts : SOptions) (now : Int)
    (hc : opts.checksum = true) (hm : opts.includeMetadata = true) :
    (∃ m : Meta, (serialize world opts now).meta = some m ∧
      m.checksum =
        some (calculateChecksum (stringifyEntities (serialize world opts now).entities))) ∧
    (validateChecksumStep (serialize world opts now)
        (calculateChecksum (stringifyEntities (serialize world opts now).entities)) =
      .ok ()) ∧
    (∀ (es : List (Option Rec)) (meta : Option Meta) (stored : String),
      calculateChecksum (stringifyEntities es) ≠ stored →
      validateChecksumStep ⟨es, meta⟩ stored =
        .error ⟨"Checksum mismatch - artifact may be corrupted", "CHECKSUM_MISMATCH"⟩) ∧
    (∀ (reg : CompRegistry) (vopts : VOptions) (es : List (Option Rec)) (m : Meta)
        (stored : String),
      vopts.validateChecksum = true → m.checksum = some stored → stored ≠ "" →
      calculateChecksum (stringifyEntities es) ≠ stored →
      validate reg vopts ⟨es, some m⟩ =
        .error ⟨"Checksum mismatch - artifact may be corrupted", "CHECKSUM_MISMATCH"⟩) := by
  refine ⟨?_, ?_, ?_, ?_⟩
  · refine ⟨{ createMetadata opts now with
        checksum :=
          some (calculateChecksum (stringifyEntities (serialize world opts now).entities)) },
      ?_, rfl⟩
    simp [serialize, hc, hm]
  · have hstep : ∀ a : Artifact,
        validateChecksumStep a (calculateChecksum (stringifyEntities a.entities)) = .ok () :=
      fun a => by simp [validateChecksumStep]
    exact hstep _
  · intro es meta stored hne
    simp [validateChecksumStep, hne]
  · intro reg vopts es m stored hvc hchk hne hmis
    simp only [validate, validateStructure, metaChecksum?, hchk]
    rw [if_pos ⟨hvc, hne⟩]
    simp only [validateChecksumStep]
    rw [if_pos hmis]
    rfl

theorem checksum_validation_witness :
    validateChecksumStep
        (serialize [] ⟨none, true, [], none, false, 3, true, true, 1, none⟩ 0)
        (calculateChecksum (stringifyEntities
          (serialize [] ⟨none, true, [], none, false, 3, true, true, 1, none⟩ 0).entities)) =
      .ok () ∧
    validateChecksumStep ⟨[], none⟩ "simple:0" =
      .error ⟨"Checksum mismatch - artifact may be corrupted", "CHECKSUM_MISMATCH"⟩ ∧
    validate [] VOptions.default ⟨[], some ⟨"1.0.0", some 1, 0, none, some "simple:0"⟩⟩ =
      .error ⟨"Checksum mismatch - artifact may be corrupted", "CHECKSUM_MISMATCH"⟩ := by
  have T := checksum_validation [] ⟨none, true, [], none, false, 3, true, true, 1, none⟩ 0 rfl rfl
  exact ⟨T.2.1, T.2.2.1 [] none "simple:0" (by decide),
    T.2.2.2 [] VOptions.default [] ⟨"1.0.0", some 1, 0, none, some "simple:0"⟩ "simple:0"
      rfl rfl (by decide) (by decide)⟩

/-! ## Deserializer (ArtifactDeserializer, the three-pass version)

The `beforeDeserialize` / `afterDeserialize` hooks keep their null defaults
(no-ops).  Deserialized entities are returned as id plus component record;
the query-candidacy bookkeeping (`_qeligible` / `_candidacy`) has no
observable effect on the returned data and is not modelled.  Pass-2 and
pass-3 console warnings for unknown components are not collected; pass-3
dangling-reference warnings are collected as a log list. -/

inductive DanglingMode where
  | null : DanglingMode
  | warn : DanglingMode
  | throw : DanglingMode
deriving Repr, DecidableEq

/-- Deserializer options (`DEFAULT_DESERIALIZE_OPTIONS`: `strictValidation:
false, danglingRefs: null`). -/
structure DOptions where
  strictValidation : Bool
  danglingRefs : DanglingMode
deriving Repr, DecidableEq

def DOptions.default : DOptions := ⟨false, .null⟩

/-- A deserialized live entity (id plus components), the observable state of
an entity returned by `deserialize`. -/
structure DEnt where
  id : String
  comps : List (String × CompStore)
deriving Repr, DecidableEq

/-- Pass 1 (`_createEntities`): create one live entity per record and map
its id.  A `null` record makes `data.id` throw in JS. -/
def createEntities : List (Option Rec) → Except String (List DEnt)
  | [] => .ok []
  | none :: _ => .error "TypeError: cannot read properties of null"
  | some r :: rest => do
    let tail ← createEntities rest
    .ok (⟨r.id, []⟩ :: tail)

/-- JS plain-object `m[k] = v`: overwrite in place, else append. -/
def objSet {α : Type} (m : List (String × α)) (k : String) (v : α) : List (String × α) :=
  match m with
  | [] => [(k, v)]
  | (k2, v2) :: rest => if k2 = k then (k, v) :: rest else (k2, v2) :: objSet rest k v

/-- `new ComponentClass(properties)`: `Object.assign(this,
this.constructor.properties, properties)` — each declared property takes the
supplied value, else its default.  (Wire data produced by the serializer
carries exactly the declared keys.) -/
def mkInstance (cls : CompClass) (data : Value) : List (String × Value) :=
  match data with
  | .vobj d => cls.properties.map (fun p => (p.1, (jsLookup d p.1).getD p.2))
  | _ => cls.properties

/-- Modelled from the spec: the repetition key of a keyed field group is the
value of its designated key property (`component.key` of the v4 `Component`,
whose source is not under src/); spec §3 and §9 describe keyed repetition as
"keyed by a designated property".  A missing or falsy key refuses the add. -/
def entKey? (cls : CompClass) (inst : List (String × Value)) : Option String :=
  match cls.keyProperty with
  | none => none
  | some kp =>
    match jsLookup inst kp with
    | some (.vstr s) => if s = "" then none else some s
    | _ => none

/-- `Entity.add(ComponentClass, data)`: attach a fresh instance as a single
component, a list entry, or a keyed entry, mirroring `Entity.add`
(refusing a duplicate single component and a falsy key; a shape-mismatched
existing store is unreachable for a registry-consistent artifact). -/
def entAdd (cls : CompClass) (accessor : String) (e : DEnt) (data : Value) : DEnt :=
  let component := mkInstance cls data
  if cls.allowMultiple then
    match cls.keyProperty with
    | none =>
      match (e.comps.find? (fun p => p.1 == accessor)) with
      | none => { e with comps := e.comps ++ [(accessor, .many [component])] }
      | some (_, .many cs) =>
        { e with comps := objSet e.comps accessor (.many (cs ++ [component])) }
      | some _ => e
    | some _ =>
      match entKey? cls component with
      | none => e
      | some k =>
        match (e.comps.find? (fun p => p.1 == accessor)) with
        | none => { e with comps := e.comps ++ [(accessor, .keyed [(k, component)])] }
        | some (_, .keyed cs) =>
          { e with comps := objSet e.comps accessor (.keyed (objSet cs k component)) }
        | some _ => e
  else
    match (e.comps.find? (fun p => p.1 == accessor)) with
    | some _ => e
    | none => { e with comps := e.comps ++ [(accessor, .single component)] }

/-- `_addComponent`: registry lookup (`camelString` is the identity on the
camelised names the serializer emits), strict/lenient unknown handling, and
the multiple-instance fan-out (`Array.isArray` or `Object.values`;
`Object.values` of a primitive has no entries). -/
def addComponent (reg : CompRegistry) (opts : DOptions) (e : DEnt)
    (componentName : String) (componentData : Value) : Except String DEnt :=
  match regGet? reg componentName with
  | none =>
    if opts.strictValidation then .error ("Unknown component type: " ++ componentName)
    else .ok e
  | some cls =>
    if cls.allowMultiple then
      let values :=
        match componentData with
        | .varr xs => xs
        | .vobj fs => fs.map (fun p : String × Value => p.2)
        | _ => []
      .ok (values.foldl (fun acc data => entAdd cls componentName acc data) e)
    else .ok (entAdd cls componentName e componentData)

/-- The component loop of `_addComponents` for one record. -/
def addComponentsRec (reg : CompRegistry) (opts : DOptions) :
    DEnt → List (String × Value) → Except String DEnt
  | e, [] => .ok e
  | e, (name, data) :: rest => do
    let e2 ← addComponent reg opts e name data
    addComponentsRec reg opts e2 rest

/-- Pass 2 (`_addComponents`): populate each created entity from its record
(references remain unresolved markers).  A `null` record is unreachable:
pass 1 has already thrown on it. -/
def addComponents (reg : CompRegistry) (opts : DOptions) :
    List (Option Rec) → List DEnt → Except String (List DEnt)
  | [], _ => .ok []
  | _, [] => .ok []
  | none :: restD, _ :: restE => addComponents reg opts restD restE
  | some r :: restD, e :: restE => do
    let e2 ← addComponentsRec reg opts e r.comps
    let tail ← addComponents reg opts restD restE
    .ok (e2 :: tail)

/-- `_handleDanglingReference`: `throw` fails naming the id, `warn` logs and
substitutes null, the default `null` silently substitutes null. -/
def handleDanglingReference (opts : DOptions) (entityId : String) :
    Except String (Value × List String) :=
  match opts.danglingRefs with
  | .throw => .error ("Dangling entity reference: " ++ entityId)
  | .warn => .ok (.vnull, ["Dangling entity reference: " ++ entityId ++ " - setting to null"])
  | .null => .ok (.vnull, [])

mutual

/-- `_resolveValue`: an object with a truthy ref-marker field resolves to
the mapped entity or the dangling policy; arrays and plain objects recurse;
everything else is returned unchanged. -/
def resolveValue (opts : DOptions) (ids : List String) :
    Value → Except String (Value × List String)
  | .vobj fs =>
    match jsLookup fs refMarkerKey with
    | some f =>
      if jsTruthy f then
        match f with
        | .vstr entityId =>
          if entityId ∈ ids then .ok (.ventity entityId, [])
          else handleDanglingReference opts entityId
        | other => handleDanglingReference opts (jsDisplay other)
      else do
        let (gs, logs) ← resolveFields opts ids fs
        .ok (.vobj gs, logs)
    | none => do
      let (gs, logs) ← resolveFields opts ids fs
      .ok (.vobj gs, logs)
  | .varr xs => do
    let (ys, logs) ← resolveList opts ids xs
    .ok (.varr ys, logs)
  | v => .ok (v, [])

def resolveList (opts : DOptions) (ids : List String) :
    List Value → Except String (List Value × List String)
  | [] => .ok ([], [])
  | x :: xs => do
    let (y, logs1) ← resolveValue opts ids x
    let (ys, logs2) ← resolveList opts ids xs
    .ok (y :: ys, logs1 ++ logs2)

def resolveFields (opts : DOptions) (ids : List String) :
    List (String × Value) → Except String (List (String × Value) × List String)
  | [] => .ok ([], [])
  | (k, x) :: fs => do
    let (y, logs1) ← resolveValue opts ids x
    let (gs, logs2) ← resolveFields opts ids fs
    .ok ((k, y) :: gs, logs1 ++ logs2)

end

/-- `_resolveComponentReferences`: resolve every field of one instance. -/
def resolveComponent (opts : DOptions) (ids : List String)
    (c : List (String × Value)) : Except String (List (String × Value) × List String) :=
  resolveFields opts ids c

/-- The store dispatch of `_resolveEntityReferences`: arrays resolve each
instance; a keyed plain object resolves each member; a single instance
(discriminated by its truthy `_ckey`) resolves directly. -/
def resolveStore (opts : DOptions) (ids : List String) :
    CompStore → Except String (CompStore × List String)
  | .single c => do
    let (d, logs) ← resolveComponent opts ids c
    .ok (.single d, logs)
  | .many cs => go cs
  | .keyed cs => goKeyed cs
where
  go : List (List (String × Value)) → Except String (CompStore × List String)
    | [] => .ok (.many [], [])
    | c :: cs => do
      let (d, logs1) ← resolveComponent opts ids c
      match ← go cs with
      | (.many ds, logs2) => .ok (.many (d :: ds), logs1 ++ logs2)
      | other => .ok other
  goKeyed : List (String × List (String × Value)) → Except String (CompStore × List String)
    | [] => .ok (.keyed [], [])
    | (k, c) :: cs => do
      let (d, logs1) ← resolveComponent opts ids c
      match ← goKeyed cs with
      | (.keyed ds, logs2) => .ok (.keyed ((k, d) :: ds), logs1 ++ logs2)
      | other => .ok other

/-- Pass 3 (`_resolveEntityReferences`) for one entity. -/
def resolveEntity (opts : DOptions) (ids : List String) (e : DEnt) :
    Except String (DEnt × List String) :=
  go e.comps >>= fun (cs, logs) => .ok (⟨e.id, cs⟩, logs)
where
  go : List (String × CompStore) → Except String (List (String × CompStore) × List String)
    | [] => .ok ([], [])
    | (k, store) :: rest => do
      let (store2, logs1) ← resolveStore opts ids store
      let (tail, logs2) ← go rest
      .ok ((k, store2) :: tail, logs1 ++ logs2)

/-- Pass 3 over all entities; a `throw`-mode failure aborts the remaining
linking work. -/
def resolveEntities (opts : DOptions) (ids : List String) :
    List DEnt → Except String (List DEnt × List String)
  | [] => .ok ([], [])
  | e :: rest => do
    let (e2, logs1) ← resolveEntity opts ids e
    let (tail, logs2) ← resolveEntities opts ids rest
    .ok (e2 :: tail, logs1 ++ logs2)

/-- `ArtifactDeserializer.deserialize`: three passes — materialize all ids,
populate components with encoded values, then link ref markers through the
completed id map. -/
def deserialize (reg : CompRegistry) (opts : DOptions) (artifact : Artifact) :
    Except String (List DEnt × List String) := do
  let entitiesData := artifact.entities
  let entities ← createEntities entitiesData
  let entityMapIds := entities.map (fun e => e.id)
  let populated ← addComponents reg opts entitiesData entities
  resolveEntities opts entityMapIds populated

/-! ## Deserializer theorems -/

/-- Specification-side decomposition of `deserialize` for stating order
independence: populate and link one record against a fixed id map. -/
def deserializeRecord (reg : CompRegistry) (opts : DOptions) (ids : List String)
    (r : Rec) : Except String (DEnt × List String) := do
  let e ← addComponentsRec reg opts ⟨r.id, []⟩ r.comps
  resolveEntity opts ids e

/-- Record-wise restatement of the three passes against a fixed id map. -/
def deserializeAll (reg : CompRegistry) (opts : DOptions) (ids : List String) :
    List Rec → Except String (List DEnt × List String)
  | [] => .ok ([], [])
  | r :: rest => do
    let (e, logs1) ← deserializeRecord reg opts ids r
    let (tail, logs2) ← deserializeAll reg opts ids rest
    .ok (e :: tail, logs1 ++ logs2)

mutual

/-- Reference resolution consults the materialized id map only through
membership. -/
theorem resolveValue_memEq (opts : DOptions) (ids₁ ids₂ : List String)
    (h : ∀ x, x ∈ ids₁ ↔ x ∈ ids₂) :
    ∀ v, resolveValue opts ids₁ v = resolveValue opts ids₂ v
  | .vnull => rfl
  | .vbool _ => rfl
  | .vnum _ => rfl
  | .vstr _ => rfl
  | .vbigint _ => rfl
  | .vdate _ => rfl
  | .ventity _ => rfl
  | .varr xs => by
    simp only [resolveValue]
    rw [resolveList_memEq opts ids₁ ids₂ h xs]
  | .vobj fs => by
    have hf := resolveFields_memEq opts ids₁ ids₂ h fs
    have hiff : ∀ s : String, (s ∈ ids₁) = (s ∈ ids₂) := fun s => propext (h s)
    simp only [resolveValue, hf, hiff]

theorem resolveList_memEq (opts : DOptions) (ids₁ ids₂ : List String)
    (h : ∀ x, x ∈ ids₁ ↔ x ∈ ids₂) :
    ∀ xs, resolveList opts ids₁ xs = resolveList opts ids₂ xs
  | [] => rfl
  | x :: xs => by
    simp only [resolveList]
    rw [resolveValue_memEq opts ids₁ ids₂ h x, resolveList_memEq opts ids₁ ids₂ h xs]

theorem resolveFields_memEq (opts : DOptions) (ids₁ ids₂ : List String)
    (h : ∀ x, x ∈ ids₁ ↔ x ∈ ids₂) :
    ∀ fs, resolveFields opts ids₁ fs = resolveFields opts ids₂ fs
  | [] => rfl
  | (k, x) :: fs => by
    simp only [resolveFields]
    rw [resolveValue_memEq opts ids₁ ids₂ h x, resolveFields_memEq opts ids₁ ids₂ h fs]

end

theorem resolveStore_memEq (opts : DOptions) (ids₁ ids₂ : List String)
    (h : ∀ x, x ∈ ids₁ ↔ x ∈ ids₂) :
    ∀ s, resolveStore opts ids₁ s = resolveStore opts ids₂ s := by
  intro s
  cases s with
  | single c =>
    simp only [resolveStore, resolveComponent]
    rw [resolveFields_memEq opts ids₁ ids₂ h c]
  | many cs =>
    simp only [resolveStore]
    induction cs with
    | nil => rfl
    | cons c cs ih =>
      simp only [resolveStore.go, resolveComponent]
      rw [resolveFields_memEq opts ids₁ ids₂ h c, ih]
  | keyed cs =>
    simp only [resolveStore]
    induction cs with
    | nil => rfl
    | cons p cs ih =>
      simp only [resolveStore.goKeyed, resolveComponent]
      rw [resolveFields_memEq opts ids₁ ids₂ h p.2, ih]

theorem resolveEntity_memEq (opts : DOptions) (ids₁ ids₂ : List String)
    (h : ∀ x, x ∈ ids₁ ↔ x ∈ ids₂) :
    ∀ e, resolveEntity opts ids₁ e = resolveEntity opts ids₂ e := by
  intro e
  simp only [resolveEntity]
  have : ∀ cs, resolveEntity.go opts ids₁ cs = resolveEntity.go opts ids₂ cs := by
    intro cs
    induction cs with
    | nil => rfl
    | cons p rest ih =>
      simp only [resolveEntity.go]
      rw [resolveStore_memEq opts ids₁ ids₂ h p.2, ih]
  rw [this e.comps]

/-- `Except` do-notation reduction over a success. -/
theorem exceptBind_ok {ε α β : Type} (a : α) (f : α → Except ε β) :
    (Except.ok a >>= f : Except ε β) = f a := rfl

/-- `Except` do-notation reduction over a failure. -/
theorem exceptBind_error {ε α β : Type} (e : ε) (f : α → Except ε β) :
    ((Except.error e : Except ε α) >>= f : Except ε β) = Except.error e := rfl

/-- With lenient validation (`strictValidation: false`) the populate pass
cannot fail. -/
theorem addComponent_ok (reg : CompRegistry) (opts : DOptions)
    (hs : opts.strictValidation = false) (e : DEnt) (name : String) (data : Value) :
    ∃ e2, addComponent reg opts e name data = .ok e2 := by
  unfold addComponent
  split
  · rw [hs]
    exact ⟨e, by simp⟩
  · split
    · exact ⟨_, rfl⟩
    · exact ⟨_, rfl⟩

theorem addComponentsRec_ok (reg : CompRegistry) (opts : DOptions)
    (hs : opts.strictValidation = false) :
    ∀ (cs : List (String × Value)) (e : DEnt),
      ∃ e2, addComponentsRec reg opts e cs = .ok e2 := by
  intro cs
  induction cs with
  | nil => exact fun e => ⟨e, rfl⟩
  | cons p rest ih =>
    intro e
    obtain ⟨e2, he2⟩ := addComponent_ok reg opts hs e p.1 p.2
    obtain ⟨e3, he3⟩ := ih e2
    exact ⟨e3, by simp only [addComponentsRec, he2, exceptBind_ok]; exact he3⟩

theorem addComponents_ok (reg : CompRegistry) (opts : DOptions)
    (hs : opts.strictValidation = false) :
    ∀ (ds : List Rec) (es : List DEnt),
      ∃ tail, addComponents reg opts (ds.map some) es = .ok tail := by
  intro ds
  induction ds with
  | nil => exact fun es => ⟨[], by simp [addComponents]⟩
  | cons r rest ih =>
    intro es
    cases es with
    | nil => exact ⟨[], by simp [addComponents]⟩
    | cons e es2 =>
      obtain ⟨e2, he2⟩ := addComponentsRec_ok reg opts hs r.comps e
      obtain ⟨tail, htail⟩ := ih es2
      exact ⟨e2 :: tail, by
        simp only [List.map_cons, addComponents, he2, htail, exceptBind_ok]⟩

/-- C3 body: `deserialize` on an all-record artifact equals the record-wise
composition against the full id list (all ids are materialized before any
linking), provided the populate pass is lenient. -/
theorem deserialize_decomposition (reg : CompRegistry) (opts : DOptions)
    (m : Option Meta) (es : List Rec) (hs : opts.strictValidation = false) :
    deserialize reg opts ⟨es.map some, m⟩ =
      deserializeAll reg opts (es.map (fun r => r.id)) es := by
  have hcreate : ∀ es2 : List Rec,
      createEntities (es2.map some) = .ok (es2.map (fun r => (⟨r.id, []⟩ : DEnt))) := by
    intro es2
    induction es2 with
    | nil => rfl
    | cons r rest ih => simp [createEntities, ih, exceptBind_ok]
  have hmain : ∀ (es2 : List Rec) (ids : List String),
      (do
        let populated ← addComponents reg opts (es2.map some)
          (es2.map (fun r => (⟨r.id, []⟩ : DEnt)))
        resolveEntities opts ids populated) =
      deserializeAll reg opts ids es2 := by
    intro es2 ids
    induction es2 with
    | nil => rfl
    | cons r rest ih =>
      obtain ⟨e2, he2⟩ := addComponentsRec_ok reg opts hs r.comps ⟨r.id, []⟩
      obtain ⟨tail, htail⟩ :=
        addComponents_ok reg opts hs rest (rest.map (fun r => (⟨r.id, []⟩ : DEnt)))
      rw [htail] at ih
      simp only [exceptBind_ok] at ih
      simp only [List.map_cons, addComponents, he2, htail, exceptBind_ok, deserializeAll,
        deserializeRecord, resolveEntities, ih]
  have hfinal := hmain es (es.map (fun r => r.id))
  simp only [deserialize, hcreate es, exceptBind_ok, List.map_map] at hfinal ⊢
  convert hfinal using 2

/-- Registry and records for the forward/self reference instance: record A
references record B, which appears only later in the array, and A also
references itself. -/
def linkReg : CompRegistry := [("link", ⟨false, none, [("next", .vnull), ("self", .vnull)]⟩)]

def recA : Rec := ⟨"a", [("link", .vobj [("next", refMarker "b"), ("self", refMarker "a")])]⟩

def recB : Rec := ⟨"b", []⟩

/-- C3: a ref marker whose (truthy) target id is materialized resolves to
the entity with that id under every dangling policy; one record's linking
outcome depends on the materialized id map only through membership, and
`deserialize` materializes every record id before any linking — hence the
outcome is order independent; concretely, a record referencing a later
record and itself links both, and the reversed artifact links identically
per record. -/
theorem order_independent_linking :
    (∀ (opts : DOptions) (ids : List String) (r : String), r ≠ "" → r ∈ ids →
      resolveValue opts ids (refMarker r) = .ok (.ventity r, [])) ∧
    (∀ (reg : CompRegistry) (opts : DOptions) (ids₁ ids₂ : List String) (r : Rec),
      (∀ x, x ∈ ids₁ ↔ x ∈ ids₂) →
      deserializeRecord reg opts ids₁ r = deserializeRecord reg opts ids₂ r) ∧
    (∀ (reg : CompRegistry) (opts : DOptions) (m : Option Meta) (es : List Rec),
      opts.strictValidation = false →
      deserialize reg opts ⟨es.map some, m⟩ =
        deserializeAll reg opts (es.map (fun r => r.id)) es) ∧
    deserialize linkReg DOptions.default ⟨[some recA, some recB], none⟩ =
      .ok ([⟨"a", [("link", .single [("next", .ventity "b"), ("self", .ventity "a")])]⟩,
            ⟨"b", []⟩], []) ∧
    deserialize linkReg DOptions.default ⟨[some recB, some recA], none⟩ =
      .ok ([⟨"b", []⟩,
            ⟨"a", [("link", .single [("next", .ventity "b"), ("self", .ventity "a")])]⟩], []) := by
  refine ⟨?_, ?_, ?_, rfl, rfl⟩
  · intro opts ids r hne hmem
    simp [resolveValue, refMarker, refMarkerKey, jsLookup, jsTruthy, hne, hmem]
  · intro reg opts ids₁ ids₂ r h
    simp only [deserializeRecord]
    cases addComponentsRec reg opts ⟨r.id, []⟩ r.comps with
    | error e => rfl
    | ok e => simp only [exceptBind_ok, resolveEntity_memEq opts ids₁ ids₂ h e]
  · exact fun reg opts m es hs => deserialize_decomposition reg opts m es hs

theorem order_independent_linking_witness :
    resolveValue DOptions.default ["b"] (refMarker "b") = .ok (.ventity "b", []) ∧
    deserializeRecord linkReg DOptions.default ["a", "b"] recA =
      deserializeRecord linkReg DOptions.default ["b", "a"] recA ∧
    deserialize linkReg DOptions.default ⟨[recA, recB].map some, none⟩ =
      deserializeAll linkReg DOptions.default (["a", "b"]) [recA, recB] := by
  have T := order_independent_linking
  refine ⟨T.1 DOptions.default ["b"] "b" (by decide) (by decide), ?_, ?_⟩
  · exact T.2.1 linkReg DOptions.default ["a", "b"] ["b", "a"] recA
      (by intro x; simp only [List.mem_cons, List.mem_singleton, List.not_mem_nil]; tauto)
  · exact T.2.2.1 linkReg DOptions.default none [recA, recB] rfl

/-- The player→sword records of the dangling-reference scenario: the sword
record is absent from the document. -/
def playerRec : Rec := ⟨"player", [("link", .vobj [("next", refMarker "sword")])]⟩

/-- C4: during the link pass, a ref marker whose target id is absent from
the materialized map follows the `danglingRefs` policy — `null` (the
default) silently substitutes null, `warn` logs and substitutes null,
`throw` fails naming the missing id and aborts the remaining linking work
(a second dangling marker after the first is never reported); concretely,
decoding player→sword without the sword record yields null at the field
under `null` and an error naming "sword" under `throw`. -/
theorem dangling_reference_policies (sv : Bool) (ids : List String) (r : String)
    (hne : r ≠ "") (habs : ¬ r ∈ ids) :
    resolveValue ⟨sv, .null⟩ ids (refMarker r) = .ok (.vnull, []) ∧
    resolveValue ⟨sv, .warn⟩ ids (refMarker r) =
      .ok (.vnull, ["Dangling entity reference: " ++ r ++ " - setting to null"]) ∧
    resolveValue ⟨sv, .throw⟩ ids (refMarker r) =
      .error ("Dangling entity reference: " ++ r) ∧
    DOptions.default.danglingRefs = .null ∧
    (∀ v : Value, resolveValue ⟨sv, .throw⟩ ids (.varr [refMarker r, v]) =
      .error ("Dangling entity reference: " ++ r)) ∧
    deserialize linkReg ⟨false, .null⟩ ⟨[some playerRec], none⟩ =
      .ok ([⟨"player", [("link", .single [("next", .vnull), ("self", .vnull)])]⟩], []) ∧
    deserialize linkReg ⟨false, .warn⟩ ⟨[some playerRec], none⟩ =
      .ok ([⟨"player", [("link", .single [("next", .vnull), ("self", .vnull)])]⟩],
        ["Dangling entity reference: sword - setting to null"]) ∧
    deserialize linkReg ⟨false, .throw⟩ ⟨[some playerRec], none⟩ =
      .error ("Dangling entity reference: sword") := by
  have hres : ∀ mode : DanglingMode,
      resolveValue ⟨sv, mode⟩ ids (refMarker r) = handleDanglingReference ⟨sv, mode⟩ r := by
    intro mode
    simp [resolveValue, refMarker, refMarkerKey, jsLookup, jsTruthy, hne, habs]
  refine ⟨?_, ?_, ?_, rfl, ?_, rfl, rfl, rfl⟩
  · rw [hres .null]; rfl
  · rw [hres .warn]; rfl
  · rw [hres .throw]; rfl
  · intro v
    have h1 : resolveList ⟨sv, .throw⟩ ids [refMarker r, v] =
        .error ("Dangling entity reference: " ++ r) := by
      rw [resolveList, hres .throw]
      rfl
    simp only [resolveValue, h1]
    rfl

theorem dangling_reference_policies_witness :
    resolveValue ⟨false, .null⟩ ["player"] (refMarker "sword") = .ok (.vnull, []) ∧
    resolveValue ⟨false, .warn⟩ ["player"] (refMarker "sword") =
      .ok (.vnull, ["Dangling entity reference: sword - setting to null"]) ∧
    resolveValue ⟨false, .throw⟩ ["player"] (refMarker "sword") =
      .error ("Dangling entity reference: sword") ∧
    resolveValue ⟨false, .throw⟩ ["player"]
        (.varr [refMarker "sword", refMarker "shield"]) =
      .error ("Dangling entity reference: sword") := by
  have T := dangling_reference_policies false ["player"] "sword" (by decide) (by decide)
  exact ⟨T.1, T.2.1, T.2.2.1, T.2.2.2.2.1 (refMarker "shield")⟩

/-! ## Wire transport (`toJSON` / `fromJSON`)

`ArtifactSerializer.toJSON` is `JSON.stringify(artifact, bigintReplacer)`
and `ArtifactDeserializer.fromJSON` is `JSON.parse(string, bigintReviver)`;
their composition transforms the artifact value tree.  The replacer (applied
top-down) drops properties whose key is in `SKIP_FIELDS` and turns a live
BigInt into a bigint marker object.  SerializationHelpers.js also writes a
date-marker branch into the replacer, but `JSON.stringify` invokes
`Date.prototype.toJSON` on a value before handing it to the replacer
(ECMA-262 SerializeJSONProperty), so a live Date reaches `bigintReplacer`
already as its ISO string: under this pipeline the date-marker branch is
dead and a live Date is emitted as a plain string.  The reviver (applied
bottom-up) checks first for a truthy bigint-marker field — `BigInt` of a
non-numeric payload throws — then for a truthy date-marker field (reachable
only from hand-crafted JSON); a date built from a non-string payload is
identified by that payload rendered as a string ("Invalid Date" for
non-numbers). -/

mutual

def wireEncode : Value → Value
  | .vbigint n => .vobj [(bigintMarkerKey, .vstr (intDec n))]
  | .vdate iso => .vstr iso
  | .varr xs => .varr (wireEncodeList xs)
  | .vobj fs => .vobj (wireEncodeFields fs)
  | v => v

def wireEncodeList : List Value → List Value
  | [] => []
  | x :: xs => wireEncode x :: wireEncodeList xs

def wireEncodeFields : List (String × Value) → List (String × Value)
  | [] => []
  | (k, x) :: fs =>
    if k ∈ skipFields then wireEncodeFields fs
    else (k, wireEncode x) :: wireEncodeFields fs

end

/-- The date-marker check of `bigintReviver`, reached when no truthy
bigint-marker field exists. -/
def reviveDate (gs : List (String × Value)) : Value :=
  match jsLookup gs dateMarkerKey with
  | some f =>
    if jsTruthy f then
      match f with
      | .vstr s => .vdate s
      | .vnum n => .vdate (intDec n)
      | _ => .vdate "Invalid Date"
    else .vobj gs
  | none => .vobj gs

/-- `bigintReviver` on one (already-revived) object. -/
def reviveMarkers (gs : List (String × Value)) : Except String Value :=
  match jsLookup gs bigintMarkerKey with
  | some f =>
    if jsTruthy f then
      match f with
      | .vstr s =>
        match intParse? s with
        | some n => .ok (.vbigint n)
        | none => .error ("SyntaxError: Cannot convert " ++ s ++ " to a BigInt")
      | .vbigint n => .ok (.vbigint n)
      | .vnum n => .ok (.vbigint n)
      | _ => .error "TypeError: Cannot convert value to a BigInt"
    else .ok (reviveDate gs)
  | none => .ok (reviveDate gs)

mutual

def wireDecode : Value → Except String Value
  | .varr xs => do
    let ys ← wireDecodeList xs
    .ok (.varr ys)
  | .vobj fs => do
    let gs ← wireDecodeFields fs
    reviveMarkers gs
  | v => .ok v

def wireDecodeList : List Value → Except String (List Value)
  | [] => .ok []
  | x :: xs => do
    let y ← wireDecode x
    let ys ← wireDecodeList xs
    .ok (y :: ys)

def wireDecodeFields : List (String × Value) → Except String (List (String × Value))
  | [] => .ok []
  | (k, x) :: fs => do
    let y ← wireDecode x
    let gs ← wireDecodeFields fs
    .ok ((k, y) :: gs)

end

/-- Wire transport of one entity record.  The record object carries the
string-valued `id` key (not a skip field) and the component names; on
artifacts whose component names avoid the skip and marker keys (the
well-formedness below — names the deserializer could not attach anyway),
the replacer and reviver act exactly on the component values and leave the
record a record. -/
def wireRec (r : Rec) : Rec := ⟨r.id, wireEncodeFields r.comps⟩

def unwireRec (r : Rec) : Except String Rec := do
  let gs ← wireDecodeFields r.comps
  .ok ⟨r.id, gs⟩

/-- Meta fields are strings and numbers; the transport changes only the
entity records. -/
def wireArtifact (a : Artifact) : Artifact :=
  ⟨a.entities.map (fun o => o.map wireRec), a.meta⟩

def unwireArtifact (a : Artifact) : Except String Artifact := do
  let es ← a.entities.mapM (fun o =>
    match o with
    | some r => (unwireRec r).map some
    | none => .ok none)
  .ok ⟨es, a.meta⟩

/-- The full round trip of the round-trip property:
`deserialize(fromJSON(toJSON(serialize(G))))`. -/
def roundTrip (reg : CompRegistry) (world : List Ent) (opts : SOptions)
    (dopts : DOptions) (now : Int) : Except String (List DEnt × List String) := do
  let artifact ← unwireArtifact (wireArtifact (serialize world opts now))
  deserialize reg dopts artifact

/-! ## Well-formed live graphs

The conditions under which the wire encodings are invertible: live values
carry no objects shaped like the three wire markers and no keys from
`SKIP_FIELDS`; entity references target live (nonempty) ids; live Date
values are excluded (stringify degrades a Date to its plain ISO string, so
a Date never round-trips exactly); component instances carry exactly their declared
property keys; stores match their registered shape; keyed entries are keyed
by their designated key property.  Every artifact the engine itself
produces from registry-consistent data satisfies them. -/

def reservedKeys : List String :=
  [refMarkerKey, bigintMarkerKey, dateMarkerKey] ++ skipFields

def nodupKeys : List String → Bool
  | [] => true
  | k :: ks => !(ks.contains k) && nodupKeys ks

mutual

def wfValue (ids : List String) : Value → Bool
  | .vnull => true
  | .vbool _ => true
  | .vnum _ => true
  | .vstr _ => true
  | .vbigint _ => true
  | .vdate _ => false
  | .ventity id => ids.contains id && id != ""
  | .varr xs => wfValueList ids xs
  | .vobj fs => wfValueFields ids fs

def wfValueList (ids : List String) : List Value → Bool
  | [] => true
  | x :: xs => wfValue ids x && wfValueList ids xs

def wfValueFields (ids : List String) : List (String × Value) → Bool
  | [] => true
  | (k, x) :: fs => !(reservedKeys.contains k) && wfValue ids x && wfValueFields ids fs

end

/-- A well-formed component instance: exactly the declared property keys,
in declaration order, with well-formed values. -/
def wfInstance (ids : List String) (cls : CompClass) (c : List (String × Value)) : Bool :=
  (c.map Prod.fst == cls.properties.map Prod.fst) && wfValueFields ids c

def wfStore (ids : List String) (cls : CompClass) : CompStore → Bool
  | .single c => !cls.allowMultiple && wfInstance ids cls c
  | .many cs =>
    cls.allowMultiple && cls.keyProperty.isNone && !cs.isEmpty &&
      cs.all (fun c => wfInstance ids cls c)
  | .keyed cs =>
    cls.allowMultiple && cls.keyProperty.isSome && !cs.isEmpty &&
      nodupKeys (cs.map Prod.fst) &&
      cs.all (fun p =>
        !(reservedKeys.contains p.1) && p.1 != "" && wfInstance ids cls p.2 &&
          (match cls.keyProperty with
           | some kp => jsLookup p.2 kp == some (.vstr p.1)
           | none => false))

def wfEnt (reg : CompRegistry) (ids : List String) (e : Ent) : Bool :=
  e.serializable && e.id != "" &&
    nodupKeys (e.comps.map Prod.fst) &&
    e.comps.all (fun p =>
      !(reservedKeys.contains p.1) && p.1 != "id" &&
        (match regGet? reg p.1 with
         | some cls => wfStore ids cls p.2
         | none => false))

def wfWorld (reg : CompRegistry) (world : List Ent) : Bool :=
  world.all (wfEnt reg (world.map (fun e => e.id)))

/-- A well-formed registry: declared property keys are distinct and avoid
the skip and marker keys. -/
def wfRegistry (reg : CompRegistry) : Bool :=
  reg.all (fun p =>
    nodupKeys (p.2.properties.map Prod.fst) &&
      (p.2.properties.map Prod.fst).all (fun k => !(reservedKeys.contains k)))

/-- The live components of an entity, as `deserialize` returns them. -/
def toDEnt (e : Ent) : DEnt := ⟨e.id, e.comps⟩

/-! ## Round-trip lemmas -/

/-- The encoded form of a value (the reference-collection accumulator does
not influence the encoded output, proved below). -/
def encV (v : Value) : Value := (encodeValue v []).1

mutual

theorem encodeValue_fst (v : Value) :
    ∀ refs : List String, (encodeValue v refs).1 = encV v := by
  cases v with
  | varr xs =>
    intro refs
    simp only [encV, encodeValue]
    rw [encodeList_fst xs refs, encodeList_fst xs []]
  | vobj fs =>
    intro refs
    simp only [encV, encodeValue]
    rw [encodeFields_fst fs refs, encodeFields_fst fs []]
  | vnull => intro refs; rfl
  | vbool b => intro refs; rfl
  | vnum n => intro refs; rfl
  | vstr s => intro refs; rfl
  | vbigint n => intro refs; rfl
  | vdate iso => intro refs; rfl
  | ventity id => intro refs; rfl

theorem encodeList_fst (xs : List Value) :
    ∀ refs : List String, (encodeList xs refs).1 = xs.map encV := by
  cases xs with
  | nil => intro refs; rfl
  | cons x xs =>
    intro refs
    simp only [encodeList, List.map_cons]
    rw [encodeValue_fst x refs, encodeList_fst xs (encodeValue x refs).2]

theorem encodeFields_fst (fs : List (String × Value)) :
    ∀ refs : List String, (encodeFields fs refs).1 = fs.map (fun p => (p.1, encV p.2)) := by
  cases fs with
  | nil => intro refs; rfl
  | cons p fs =>
    intro refs
    simp only [encodeFields, List.map_cons]
    rw [encodeValue_fst p.2 refs, encodeFields_fst fs (encodeValue p.2 refs).2]

end

theorem jsLookup_none (k : String) :
    ∀ fs : List (String × Value), fs.all (fun p => p.1 != k) → jsLookup fs k = none := by
  intro fs
  induction fs with
  | nil => intro _; rfl
  | cons p fs ih =>
    intro h
    simp only [List.all_cons, Bool.and_eq_true, bne_iff_ne] at h
    simp only [jsLookup, List.find?]
    rw [show (p.1 == k) = false from by simpa using h.1]
    simpa [jsLookup] using ih (by simpa using h.2)

/-- The reviver leaves an object without marker keys unchanged. -/
theorem revive_plain (gs : List (String × Value))
    (h : gs.all (fun p => !(reservedKeys.contains p.1))) :
    reviveMarkers gs = .ok (.vobj gs) := by
  have hb : jsLookup gs bigintMarkerKey = none := by
    apply jsLookup_none
    simp only [List.all_eq_true] at h ⊢
    intro p hp
    have := h p hp
    simp only [reservedKeys, List.contains_cons, Bool.not_eq_true', Bool.or_eq_false_iff] at this
    simpa using fun he => by simp [he] at this
  have hd : jsLookup gs dateMarkerKey = none := by
    apply jsLookup_none
    simp only [List.all_eq_true] at h ⊢
    intro p hp
    have := h p hp
    simp only [reservedKeys, List.contains_cons, Bool.not_eq_true', Bool.or_eq_false_iff] at this
    simpa using fun he => by simp [he] at this
  simp [reviveMarkers, reviveDate, hb, hd]

theorem natDec_ne_empty (n : Nat) : natDec n ≠ "" := by
  by_cases h : n = 0
  · subst h; decide
  · simp only [natDec, if_neg h]
    intro hc
    have hdata : natDecAux (n + 1) n = [] := by
      have := congrArg String.data hc
      simpa using this
    exact natDecAux_ne_nil n h hdata

theorem intDec_ne_empty (n : Int) : intDec n ≠ "" := by
  by_cases h : n < 0
  · simp only [intDec, if_pos h]
    intro hc
    have := congrArg String.data hc
    simp [String.data_append] at this
  · simp only [intDec, if_neg h]
    exact natDec_ne_empty _

theorem skip_of_reserved {k : String} (h : reservedKeys.contains k = false) :
    ¬ k ∈ skipFields := by
  intro hc
  simp [reservedKeys, skipFields, refMarkerKey, bigintMarkerKey, dateMarkerKey] at h hc
  tauto

mutual

/-- The wire transport is the identity on encoder output (for well-formed
live values). -/
theorem wire_roundtrip_val (ids : List String) :
    ∀ v, wfValue ids v = true → wireDecode (wireEncode (encV v)) = .ok (encV v)
  | .vnull, _ => rfl
  | .vbool _, _ => rfl
  | .vnum _, _ => rfl
  | .vstr _, _ => rfl
  | .vbigint n, _ => by
    have ht : jsTruthy (.vstr (intDec n)) = true := by
      simp [jsTruthy, bne_iff_ne]
      exact intDec_ne_empty n
    show wireDecode (.vobj [(bigintMarkerKey, .vstr (intDec n))]) = .ok (.vbigint n)
    simp [wireDecode, wireDecodeFields, exceptBind_ok, reviveMarkers, jsLookup,
      List.find?, ht, intParse_intDec, bigintMarkerKey]
  | .vdate iso, h => by
    simp [wfValue] at h
  | .ventity id, _ => by
    show wireDecode (wireEncode (refMarker id)) = .ok (refMarker id)
    simp [wireEncode, wireEncodeFields, refMarker, refMarkerKey, skipFields, wireDecode,
      wireDecodeFields, exceptBind_ok, reviveMarkers, reviveDate, jsLookup, List.find?,
      bigintMarkerKey, dateMarkerKey]
  | .varr xs, h => by
    have hl : wfValueList ids xs = true := by simpa [wfValue] using h
    have he : encV (.varr xs) = .varr (xs.map encV) := by
      simp only [encV, encodeValue]
      rw [encodeList_fst xs []]
    rw [he]
    simp only [wireEncode, wireDecode, wire_roundtrip_list ids xs hl, exceptBind_ok]
  | .vobj fs, h => by
    have hf : wfValueFields ids fs = true := by simpa [wfValue] using h
    have he : encV (.vobj fs) = .vobj (fs.map (fun p => (p.1, encV p.2))) := by
      simp only [encV, encodeValue]
      rw [encodeFields_fst fs []]
      rfl
    have hkeysAux : ∀ gs, wfValueFields ids gs = true →
        gs.all (fun p => !(reservedKeys.contains p.1)) = true := by
      intro gs
      induction gs with
      | nil => intro _; rfl
      | cons p gs ih =>
        intro hg
        simp only [wfValueFields, Bool.and_eq_true] at hg
        simp only [List.all_cons, Bool.and_eq_true]
        exact ⟨hg.1.1, ih hg.2⟩
    have hkeys : (fs.map (fun p => (p.1, encV p.2))).all
        (fun p => !(reservedKeys.contains p.1)) = true := by
      rw [List.all_map]
      have hres := hkeysAux fs hf
      simp only [List.all_eq_true] at hres ⊢
      exact fun p hp => hres p hp
    rw [he]
    simp only [wireEncode, wireDecode, wire_roundtrip_fields ids fs hf, exceptBind_ok]
    exact revive_plain _ hkeys

theorem wire_roundtrip_list (ids : List String) :
    ∀ xs, wfValueList ids xs = true →
      wireDecodeList (wireEncodeList (xs.map encV)) = .ok (xs.map encV)
  | [], _ => rfl
  | x :: xs, h => by
    have hx : wfValue ids x = true := by
      simp only [wfValueList, Bool.and_eq_true] at h
      exact h.1
    have hxs : wfValueList ids xs = true := by
      simp only [wfValueList, Bool.and_eq_true] at h
      exact h.2
    simp only [List.map_cons, wireEncodeList, wireDecodeList,
      wire_roundtrip_val ids x hx, wire_roundtrip_list ids xs hxs, exceptBind_ok]

theorem wire_roundtrip_fields (ids : List String) :
    ∀ fs, wfValueFields ids fs = true →
      wireDecodeFields (wireEncodeFields (fs.map (fun p => (p.1, encV p.2)))) =
        .ok (fs.map (fun p => (p.1, encV p.2)))
  | [], _ => rfl
  | (k, x) :: fs, h => by
    have h1 : ((!(reservedKeys.contains k)) = true ∧ wfValue ids x = true) ∧
        wfValueFields ids fs = true := by
      simpa only [wfValueFields, Bool.and_eq_true] using h
    have hk : reservedKeys.contains k = false := by simpa using h1.1.1
    have hskip : ¬ k ∈ skipFields := skip_of_reserved hk
    simp only [List.map_cons, wireEncodeFields, if_neg hskip, wireDecodeFields,
      wire_roundtrip_val ids x h1.1.2, wire_roundtrip_fields ids fs h1.2, exceptBind_ok]

end

theorem encV_varr (xs : List Value) : encV (.varr xs) = .varr (xs.map encV) := by
  simp only [encV, encodeValue]
  rw [encodeList_fst xs []]

theorem encV_vobj (fs : List (String × Value)) :
    encV (.vobj fs) = .vobj (fs.map (fun p => (p.1, encV p.2))) := by
  simp only [encV, encodeValue]
  rw [encodeFields_fst fs []]
  rfl

theorem wfFields_keys (ids : List String) :
    ∀ gs, wfValueFields ids gs = true →
      gs.all (fun p => !(reservedKeys.contains p.1)) = true := by
  intro gs
  induction gs with
  | nil => intro _; rfl
  | cons p gs ih =>
    intro hg
    simp only [wfValueFields, Bool.and_eq_true] at hg
    simp only [List.all_cons, Bool.and_eq_true]
    exact ⟨hg.1.1, ih hg.2⟩

theorem ne_ref_of_reserved {k : String} (h : (!(reservedKeys.contains k)) = true) :
    (k != refMarkerKey) = true := by
  simp only [Bool.not_eq_true'] at h
  simp [reservedKeys, refMarkerKey, bigintMarkerKey, dateMarkerKey, skipFields] at h
  simp [bne_iff_ne, refMarkerKey]
  tauto

mutual

/-- The link pass inverts the encoder on well-formed live values: every ref
marker resolves back to its live entity reference, other values return
unchanged, with no dangling warnings. -/
theorem resolve_enc_val (dopts : DOptions) (ids : List String) :
    ∀ v, wfValue ids v = true → resolveValue dopts ids (encV v) = .ok (v, [])
  | .vnull, _ => rfl
  | .vbool _, _ => rfl
  | .vnum _, _ => rfl
  | .vstr _, _ => rfl
  | .vbigint _, _ => rfl
  | .vdate _, _ => rfl
  | .ventity id, h => by
    have h1 : ids.contains id = true ∧ (id != "") = true := by
      simpa [wfValue, Bool.and_eq_true] using h
    have hmem : id ∈ ids := by simpa using h1.1
    have hne : id ≠ "" := by simpa using h1.2
    show resolveValue dopts ids (refMarker id) = .ok (.ventity id, [])
    simp [resolveValue, refMarker, refMarkerKey, jsLookup, List.find?, jsTruthy,
      bne_iff_ne, hne, hmem]
  | .varr xs, h => by
    have hl : wfValueList ids xs = true := by simpa [wfValue] using h
    rw [encV_varr]
    simp only [resolveValue, resolve_enc_list dopts ids xs hl, exceptBind_ok]
  | .vobj fs, h => by
    have hf : wfValueFields ids fs = true := by simpa [wfValue] using h
    have hkeys := wfFields_keys ids fs hf
    have hnref : (fs.map (fun p => (p.1, encV p.2))).all
        (fun p => p.1 != refMarkerKey) = true := by
      rw [List.all_map]
      simp only [List.all_eq_true] at hkeys ⊢
      exact fun p hp => ne_ref_of_reserved (hkeys p hp)
    have hlook := jsLookup_none refMarkerKey _ hnref
    rw [encV_vobj]
    simp only [resolveValue, hlook, resolve_enc_fields dopts ids fs hf, exceptBind_ok]

theorem resolve_enc_list (dopts : DOptions) (ids : List String) :
    ∀ xs, wfValueList ids xs = true →
      resolveList dopts ids (xs.map encV) = .ok (xs, [])
  | [], _ => rfl
  | x :: xs, h => by
    have h1 : wfValue ids x = true ∧ wfValueList ids xs = true := by
      simpa only [wfValueList, Bool.and_eq_true] using h
    simp only [List.map_cons, resolveList, resolve_enc_val dopts ids x h1.1,
      resolve_enc_list dopts ids xs h1.2, exceptBind_ok, List.nil_append]

theorem resolve_enc_fields (dopts : DOptions) (ids : List String) :
    ∀ fs, wfValueFields ids fs = true →
      resolveFields dopts ids (fs.map (fun p => (p.1, encV p.2))) = .ok (fs, [])
  | [], _ => rfl
  | (k, x) :: fs, h => by
    have h1 : ((!(reservedKeys.contains k)) = true ∧ wfValue ids x = true) ∧
        wfValueFields ids fs = true := by
      simpa only [wfValueFields, Bool.and_eq_true] using h
    simp only [List.map_cons, resolveFields, resolve_enc_val dopts ids x h1.1.2,
      resolve_enc_fields dopts ids fs h1.2, exceptBind_ok, List.nil_append]

end

theorem jsLookup_cons (k2 k : String) (v2 : Value) (rest : List (String × Value)) :
    jsLookup ((k2, v2) :: rest) k =
      if (k2 == k) = true then some v2 else jsLookup rest k := by
  by_cases h : (k2 == k) = true
  · simp [jsLookup, List.find?, h]
  · simp only [Bool.not_eq_true] at h
    simp [jsLookup, List.find?, h]

/-- Rebuilding a component instance from its encoded wire data restores the
encoded instance: `Object.assign(this, defaults, data)` reads back exactly
the declared keys, which the data carries in order. -/
theorem mkInstance_enc (ps c : List (String × Value))
    (hfst : c.map Prod.fst = ps.map Prod.fst)
    (hnd : nodupKeys (ps.map Prod.fst) = true) :
    ps.map (fun p => (p.1, (jsLookup (c.map (fun q => (q.1, encV q.2))) p.1).getD p.2)) =
      c.map (fun q => (q.1, encV q.2)) := by
  induction c generalizing ps with
  | nil =>
    cases ps with
    | nil => rfl
    | cons p ps => simp at hfst
  | cons q c ih =>
    cases ps with
    | nil => simp at hfst
    | cons p ps =>
      simp only [List.map_cons, List.cons.injEq] at hfst
      have hk : q.1 = p.1 := hfst.1
      have hnd2 : (!(List.contains (ps.map Prod.fst) p.1)) = true ∧
          nodupKeys (ps.map Prod.fst) = true := by
        simpa only [List.map_cons, nodupKeys, Bool.and_eq_true] using hnd
      have hnotin : ¬ p.1 ∈ ps.map Prod.fst := by simpa using hnd2.1
      simp only [List.map_cons]
      rw [jsLookup_cons, if_pos (show (q.1 == p.1) = true from by simp [hk])]
      simp only [Option.getD_some]
      have htail : ps.map (fun p2 =>
          (p2.1, (jsLookup ((q.1, encV q.2) :: c.map (fun q2 => (q2.1, encV q2.2))) p2.1).getD
            p2.2)) =
          ps.map (fun p2 =>
            (p2.1, (jsLookup (c.map (fun q2 => (q2.1, encV q2.2))) p2.1).getD p2.2)) := by
        apply List.map_congr_left
        intro p2 hp2
        have hne : ¬ (q.1 == p2.1) = true := by
          simp only [beq_iff_eq, hk]
          intro he
          exact hnotin (he ▸ List.mem_map_of_mem Prod.fst hp2)
        rw [jsLookup_cons, if_neg hne]
      rw [htail, ih ps hfst.2 hnd2.2, hk]

/-- The wire value a component store serializes to. -/
def storeToValue : CompStore → Value
  | .single c => .vobj c
  | .many cs => .varr (cs.map Value.vobj)
  | .keyed cs => .vobj (cs.map (fun p => (p.1, Value.vobj p.2)))

theorem serializeComponentStore_eq (store : CompStore) :
    ∀ refs, serializeComponentStore store refs = encodeValue (storeToValue store) refs := by
  cases store with
  | single c => intro refs; rfl
  | many cs =>
    intro refs
    show serializeComponentStore.go cs refs = _
    induction cs generalizing refs with
    | nil => rfl
    | cons c cs ih =>
      simp only [serializeComponentStore.go, storeToValue, List.map_cons, encodeValue,
        encodeList, serializeComponent]
      rw [ih (encodeFields c refs).2]
      simp only [storeToValue, encodeValue]
  | keyed cs =>
    intro refs
    show serializeComponentStore.goKeyed cs refs = _
    induction cs generalizing refs with
    | nil => rfl
    | cons p cs ih =>
      simp only [serializeComponentStore.goKeyed, storeToValue, List.map_cons, encodeValue,
        encodeFields, serializeComponent]
      rw [ih (encodeFields p.2 refs).2]
      simp only [storeToValue, encodeValue]

theorem wfStore_value (ids : List String) (cls : CompClass) (store : CompStore)
    (h : wfStore ids cls store = true) : wfValue ids (storeToValue store) = true := by
  cases store with
  | single c =>
    simp only [wfStore, wfInstance, Bool.and_eq_true] at h
    simpa [storeToValue, wfValue] using h.2.2
  | many cs =>
    simp only [wfStore, Bool.and_eq_true, List.all_eq_true] at h
    simp only [storeToValue, wfValue]
    have := h.2
    clear h
    induction cs with
    | nil => rfl
    | cons c cs ih =>
      simp only [List.map_cons, wfValueList, Bool.and_eq_true]
      refine ⟨?_, ih (fun c2 hc2 => this c2 (by simp [hc2]))⟩
      have hc := this c (by simp)
      simp only [wfInstance, Bool.and_eq_true] at hc
      simpa [wfValue] using hc.2
  | keyed cs =>
    simp only [wfStore, Bool.and_eq_true, List.all_eq_true] at h
    simp only [storeToValue, wfValue]
    have := h.2
    clear h
    induction cs with
    | nil => rfl
    | cons p cs ih =>
      simp only [List.map_cons, wfValueFields, Bool.and_eq_true]
      have hp := this p (by simp)
      simp only [Bool.and_eq_true, wfInstance] at hp
      refine ⟨⟨hp.1.1.1, ?_⟩, ih (fun p2 hp2 => this p2 (by simp [hp2]))⟩
      simpa [wfValue] using hp.1.2.2

/-- The encoded form of a component instance. -/
def encInst (c : List (String × Value)) : List (String × Value) :=
  c.map (fun q => (q.1, encV q.2))

/-- A component store with every instance replaced by its encoded form: the
state of a populated entity after pass 2, before linking. -/
def encStoreInst : CompStore → CompStore
  | .single c => .single (encInst c)
  | .many cs => .many (cs.map encInst)
  | .keyed cs => .keyed (cs.map (fun p => (p.1, encInst p.2)))

/-- The component fields of a serialized entity record. -/
def encComps (cs : List (String × CompStore)) : List (String × Value) :=
  cs.map (fun p => (p.1, encV (storeToValue p.2)))

theorem find?_absent (name : String) (m : List (String × CompStore))
    (h : ¬ name ∈ m.map Prod.fst) :
    m.find? (fun p => p.1 == name) = none := by
  induction m with
  | nil => rfl
  | cons p m ih =>
    simp only [List.map_cons, List.mem_cons, not_or] at h
    simp only [List.find?]
    rw [show (p.1 == name) = false from by simpa using fun he => h.1 he.symm]
    exact ih h.2

theorem find?_last (name : String) (m : List (String × CompStore)) (x : CompStore)
    (h : ¬ name ∈ m.map Prod.fst) :
    (m ++ [(name, x)]).find? (fun p => p.1 == name) = some (name, x) := by
  induction m with
  | nil => simp [List.find?]
  | cons p m ih =>
    simp only [List.map_cons, List.mem_cons, not_or] at h
    simp only [List.cons_append, List.find?]
    rw [show (p.1 == name) = false from by simpa using fun he => h.1 he.symm]
    exact ih h.2

theorem objSet_absent {α : Type} (k : String) (v : α) (m : List (String × α))
    (h : ¬ k ∈ m.map Prod.fst) :
    objSet m k v = m ++ [(k, v)] := by
  induction m with
  | nil => rfl
  | cons p m ih =>
    simp only [List.map_cons, List.mem_cons, not_or] at h
    simp only [objSet, List.cons_append]
    rw [if_neg (fun he => h.1 he.symm), ih h.2]

theorem objSet_last (k : String) (v x : CompStore) (m : List (String × CompStore))
    (h : ¬ k ∈ m.map Prod.fst) :
    objSet (m ++ [(k, x)]) k v = m ++ [(k, v)] := by
  induction m with
  | nil => simp [objSet]
  | cons p m ih =>
    simp only [List.map_cons, List.mem_cons, not_or] at h
    simp only [List.cons_append, objSet]
    rw [if_neg (fun he => h.1 he.symm)]
    have hi := ih h.2
    simp only [List.append_eq] at hi ⊢
    rw [hi]

theorem jsLookup_encInst (c : List (String × Value)) (k : String) :
    jsLookup (encInst c) k = (jsLookup c k).map encV := by
  induction c with
  | nil => rfl
  | cons q c ih =>
    simp only [encInst, List.map_cons] at *
    rw [jsLookup_cons, jsLookup_cons]
    by_cases h : (q.1 == k) = true
    · rw [if_pos h, if_pos h]
      rfl
    · rw [if_neg h, if_neg h, ih]

theorem mkInstance_encInst (cls : CompClass) (c : List (String × Value))
    (hinst : c.map Prod.fst = cls.properties.map Prod.fst)
    (hnd : nodupKeys (cls.properties.map Prod.fst) = true) :
    mkInstance cls (.vobj (encInst c)) = encInst c := by
  simp only [mkInstance, encInst]
  exact mkInstance_enc cls.properties c hinst hnd

theorem entKey_encInst (cls : CompClass) (kp k : String) (c : List (String × Value))
    (hkp : cls.keyProperty = some kp) (hlk : jsLookup c kp = some (.vstr k))
    (hk : k ≠ "") :
    entKey? cls (encInst c) = some k := by
  simp only [entKey?, hkp, jsLookup_encInst, hlk, Option.map_some]
  simp [encV, encodeValue, hk]

theorem entAdd_single (cls : CompClass) (name id : String)
    (done : List (String × CompStore)) (c : List (String × Value))
    (hm : cls.allowMultiple = false) (hnot : ¬ name ∈ done.map Prod.fst)
    (hfst : c.map Prod.fst = cls.properties.map Prod.fst)
    (hnd : nodupKeys (cls.properties.map Prod.fst) = true) :
    entAdd cls name ⟨id, done⟩ (.vobj (encInst c)) =
      ⟨id, done ++ [(name, .single (encInst c))]⟩ := by
  simp only [entAdd, hm, Bool.false_eq_true, if_false, find?_absent name done hnot,
    mkInstance_encInst cls c hfst hnd]

theorem entAdd_many_fold (cls : CompClass) (name id : String)
    (done : List (String × CompStore)) (hnot : ¬ name ∈ done.map Prod.fst)
    (hm : cls.allowMultiple = true) (hkp : cls.keyProperty = none)
    (hnd : nodupKeys (cls.properties.map Prod.fst) = true) :
    ∀ (cs acc : List (List (String × Value))),
      (∀ c ∈ cs, c.map Prod.fst = cls.properties.map Prod.fst) →
      List.foldl (fun e data => entAdd cls name e data) ⟨id, done ++ [(name, .many acc)]⟩
          (cs.map (fun c => .vobj (encInst c))) =
        ⟨id, done ++ [(name, .many (acc ++ cs.map encInst))]⟩
  | [], acc, _ => by simp
  | c :: cs, acc, h => by
    have hstep : entAdd cls name ⟨id, done ++ [(name, .many acc)]⟩ (.vobj (encInst c)) =
        ⟨id, done ++ [(name, .many (acc ++ [encInst c]))]⟩ := by
      simp only [entAdd, hm, if_true, hkp, find?_last name done (.many acc) hnot,
        objSet_last name _ (.many acc) done hnot,
        mkInstance_encInst cls c (h c (by simp)) hnd]
    simp only [List.map_cons, List.foldl_cons, hstep]
    rw [entAdd_many_fold cls name id done hnot hm hkp hnd cs (acc ++ [encInst c])
      (fun c2 hc2 => h c2 (by simp [hc2]))]
    simp

theorem entAdd_keyed_fold (cls : CompClass) (kp name id : String)
    (done : List (String × CompStore)) (hnot : ¬ name ∈ done.map Prod.fst)
    (hm : cls.allowMultiple = true) (hkp : cls.keyProperty = some kp)
    (hnd : nodupKeys (cls.properties.map Prod.fst) = true) :
    ∀ (cs acc : List (String × List (String × Value))),
      (∀ p ∈ cs, p.2.map Prod.fst = cls.properties.map Prod.fst ∧
        jsLookup p.2 kp = some (.vstr p.1) ∧ p.1 ≠ "" ∧ ¬ p.1 ∈ acc.map Prod.fst) →
      nodupKeys (cs.map Prod.fst) = true →
      List.foldl (fun e data => entAdd cls name e data)
          ⟨id, done ++ [(name, .keyed (acc.map (fun p => (p.1, encInst p.2))))]⟩
          (cs.map (fun p => .vobj (encInst p.2))) =
        ⟨id, done ++ [(name, .keyed ((acc ++ cs).map (fun p => (p.1, encInst p.2))))]⟩
  | [], acc, _, _ => by simp
  | p :: cs, acc, h, hndc => by
    have hp := h p (by simp)
    have hkey := entKey_encInst cls kp p.1 p.2 hkp hp.2.1 hp.2.2.1
    have hnotacc : ¬ p.1 ∈ (acc.map (fun q => (q.1, encInst q.2))).map Prod.fst := by
      simpa using hp.2.2.2
    have hstep : entAdd cls name
        ⟨id, done ++ [(name, .keyed (acc.map (fun q => (q.1, encInst q.2))))]⟩
        (.vobj (encInst p.2)) =
        ⟨id, done ++ [(name, .keyed ((acc ++ [p]).map (fun q => (q.1, encInst q.2))))]⟩ := by
      simp only [entAdd, hm, if_true, hkp, hkey,
        find?_last name done _ hnot, objSet_last name _ _ done hnot,
        mkInstance_encInst cls p.2 hp.1 hnd, objSet_absent p.1 _ _ hnotacc]
      simp
    simp only [List.map_cons, List.foldl_cons, hstep]
    have hsplit : (!(List.contains (cs.map Prod.fst) p.1)) = true ∧
        nodupKeys (cs.map Prod.fst) = true := by
      simpa only [List.map_cons, nodupKeys, Bool.and_eq_true] using hndc
    have hfresh : ¬ p.1 ∈ cs.map Prod.fst := by simpa using hsplit.1
    rw [entAdd_keyed_fold cls kp name id done hnot hm hkp hnd cs (acc ++ [p])
      (fun q hq => by
        have hq2 := h q (by simp [hq])
        refine ⟨hq2.1, hq2.2.1, hq2.2.2.1, ?_⟩
        simp only [List.map_append, List.mem_append, List.map_cons, List.map_nil,
          List.mem_singleton, not_or]
        refine ⟨hq2.2.2.2, ?_⟩
        intro hqp
        exact hfresh (by simpa [hqp] using List.mem_map_of_mem Prod.fst hq))
      hsplit.2]
    simp

theorem encV_store_single (c : List (String × Value)) :
    encV (storeToValue (.single c)) = .vobj (encInst c) :=
  encV_vobj c

theorem encV_store_many (cs : List (List (String × Value))) :
    encV (storeToValue (.many cs)) = .varr (cs.map (fun c => .vobj (encInst c))) := by
  simp only [storeToValue, encV_varr, List.map_map]
  congr 1
  apply List.map_congr_left
  intro c _
  exact encV_vobj c

theorem encV_store_keyed (cs : List (String × List (String × Value))) :
    encV (storeToValue (.keyed cs)) =
      .vobj (cs.map (fun p => (p.1, .vobj (encInst p.2)))) := by
  simp only [storeToValue, encV_vobj, List.map_map]
  congr 1
  apply List.map_congr_left
  intro p _
  simp only [Function.comp]
  rw [encV_vobj]
  rfl

/-- Pass 2 on one serialized component: the store is rebuilt at the end of
the component record, with every instance in encoded form. -/
theorem addComponent_store (reg : CompRegistry) (dopts : DOptions) (ids : List String)
    (cls : CompClass) (name id : String) (done : List (String × CompStore))
    (store : CompStore) (hr : regGet? reg name = some cls)
    (hw : wfStore ids cls store = true) (hnot : ¬ name ∈ done.map Prod.fst)
    (hnd : nodupKeys (cls.properties.map Prod.fst) = true) :
    addComponent reg dopts ⟨id, done⟩ name (encV (storeToValue store)) =
      .ok ⟨id, done ++ [(name, encStoreInst store)]⟩ := by
  cases store with
  | single c =>
    simp only [wfStore, wfInstance, Bool.and_eq_true, Bool.not_eq_true'] at hw
    obtain ⟨hm, hkeys, _⟩ := hw
    have hfst : c.map Prod.fst = cls.properties.map Prod.fst := by simpa using hkeys
    rw [encV_store_single]
    simp only [addComponent, hr, hm, Bool.false_eq_true, if_false,
      entAdd_single cls name id done c hm hnot hfst hnd, encStoreInst]
  | many cs =>
    simp only [wfStore, Bool.and_eq_true, List.all_eq_true] at hw
    obtain ⟨⟨⟨hm, hkpn⟩, hne⟩, hall⟩ := hw
    have hkp : cls.keyProperty = none := by simpa using hkpn
    have hfst : ∀ c ∈ cs, c.map Prod.fst = cls.properties.map Prod.fst := by
      intro c hc
      have := hall c hc
      simp only [wfInstance, Bool.and_eq_true] at this
      simpa using this.1
    cases cs with
    | nil => simp at hne
    | cons c0 rest =>
      rw [encV_store_many]
      simp only [addComponent, hr, hm, if_true, List.map_cons, List.foldl_cons]
      have hfirst : entAdd cls name ⟨id, done⟩ (.vobj (encInst c0)) =
          ⟨id, done ++ [(name, .many [encInst c0])]⟩ := by
        simp only [entAdd, hm, if_true, hkp, find?_absent name done hnot,
          mkInstance_encInst cls c0 (hfst c0 (by simp)) hnd]
      rw [hfirst, entAdd_many_fold cls name id done hnot hm hkp hnd rest [encInst c0]
        (fun c hc => hfst c (by simp [hc]))]
      simp [encStoreInst]
  | keyed cs =>
    simp only [wfStore, Bool.and_eq_true, List.all_eq_true] at hw
    obtain ⟨⟨⟨⟨hm, hkps⟩, hne⟩, hndc⟩, hall⟩ := hw
    obtain ⟨kp, hkp⟩ := Option.isSome_iff_exists.mp hkps
    have hprops : ∀ p ∈ cs, p.2.map Prod.fst = cls.properties.map Prod.fst ∧
        jsLookup p.2 kp = some (.vstr p.1) ∧ p.1 ≠ "" := by
      intro p hp
      have := hall p hp
      simp only [wfInstance, Bool.and_eq_true, hkp] at this
      refine ⟨by simpa using this.1.2.1, by simpa using this.2, by simpa using this.1.1.2⟩
    cases cs with
    | nil => simp at hne
    | cons p0 rest =>
      have hndsplit : (!(List.contains (rest.map Prod.fst) p0.1)) = true ∧
          nodupKeys (rest.map Prod.fst) = true := by
        simpa only [List.map_cons, nodupKeys, Bool.and_eq_true] using hndc
      have hfreshp0 : ¬ p0.1 ∈ rest.map Prod.fst := by simpa using hndsplit.1
      rw [encV_store_keyed]
      simp only [addComponent, hr, hm, if_true, List.map_cons, List.foldl_cons]
      have hkey0 := entKey_encInst cls kp p0.1 p0.2 hkp (hprops p0 (by simp)).2.1
        (hprops p0 (by simp)).2.2
      have hfirst : entAdd cls name ⟨id, done⟩ (.vobj (encInst p0.2)) =
          ⟨id, done ++ [(name, .keyed [(p0.1, encInst p0.2)])]⟩ := by
        simp only [entAdd, hm, if_true, hkp, hkey0, find?_absent name done hnot,
          mkInstance_encInst cls p0.2 (hprops p0 (by simp)).1 hnd]
      have hvals : rest.map (fun p => Value.vobj (encInst p.2)) =
          rest.map (fun p => Value.vobj (encInst p.2)) := rfl
      rw [hfirst]
      have hfold := entAdd_keyed_fold cls kp name id done hnot hm hkp hnd rest [p0]
        (fun q hq => by
          have hq2 := hprops q (by simp [hq])
          refine ⟨hq2.1, hq2.2.1, hq2.2.2, ?_⟩
          simp only [List.map_cons, List.map_nil, List.mem_singleton]
          intro hqp
          exact hfreshp0 (by simpa [hqp] using List.mem_map_of_mem Prod.fst hq))
        hndsplit.2
      simp only [List.map_cons, List.map_nil] at hfold
      have hcomp : List.map (fun p => p.2)
          (List.map (fun p : String × List (String × Value) =>
            (p.1, Value.vobj (encInst p.2))) rest) =
          List.map (fun p => Value.vobj (encInst p.2)) rest := by
        rw [List.map_map]
        rfl
      rw [hcomp, hfold]
      simp [encStoreInst]

theorem wfRegistry_props (reg : CompRegistry) (hreg : wfRegistry reg = true)
    (name : String) (cls : CompClass) (hr : regGet? reg name = some cls) :
    nodupKeys (cls.properties.map Prod.fst) = true := by
  induction reg with
  | nil => simp [regGet?] at hr
  | cons p reg ih =>
    simp only [wfRegistry, List.all_cons, Bool.and_eq_true] at hreg
    simp only [regGet?, List.find?] at hr
    by_cases hb : (p.1 == name) = true
    · rw [hb] at hr
      simp only [Option.some.injEq] at hr
      subst hr
      exact hreg.1.1
    · simp only [Bool.not_eq_true] at hb
      rw [hb] at hr
      exact ih hreg.2 (by simpa [regGet?] using hr)

/-- Pass 2 on a whole serialized record: every component store is rebuilt in
order, with instances in encoded form. -/
theorem addComponentsRec_enc (reg : CompRegistry) (dopts : DOptions) (ids : List String)
    (id : String) :
    ∀ (comps done : List (String × CompStore)),
      (∀ p ∈ comps, ∃ cls, regGet? reg p.1 = some cls ∧ wfStore ids cls p.2 = true ∧
        nodupKeys (cls.properties.map Prod.fst) = true) →
      (∀ p ∈ comps, ¬ p.1 ∈ done.map Prod.fst) →
      nodupKeys (comps.map Prod.fst) = true →
      addComponentsRec reg dopts ⟨id, done⟩ (encComps comps) =
        .ok ⟨id, done ++ comps.map (fun p => (p.1, encStoreInst p.2))⟩
  | [], done, _, _, _ => by simp [encComps, addComponentsRec]
  | (name, store) :: comps, done, hcls, hdis, hnd => by
    obtain ⟨cls, hr, hw, hnd2⟩ := hcls (name, store) (by simp)
    have hnot : ¬ name ∈ done.map Prod.fst := hdis (name, store) (by simp)
    have hndsplit : (!(List.contains (comps.map Prod.fst) name)) = true ∧
        nodupKeys (comps.map Prod.fst) = true := by
      simpa only [List.map_cons, nodupKeys, Bool.and_eq_true] using hnd
    have hfresh : ¬ name ∈ comps.map Prod.fst := by simpa using hndsplit.1
    simp only [encComps, List.map_cons, addComponentsRec,
      addComponent_store reg dopts ids cls name id done store hr hw hnot hnd2,
      exceptBind_ok]
    have htail := addComponentsRec_enc reg dopts ids id comps
      (done ++ [(name, encStoreInst store)])
      (fun p hp => hcls p (by simp [hp]))
      (fun p hp => by
        simp only [List.map_append, List.mem_append, List.map_cons, List.map_nil,
          List.mem_singleton, not_or]
        refine ⟨hdis p (by simp [hp]), ?_⟩
        intro hpn
        exact hfresh (by simpa [hpn] using List.mem_map_of_mem Prod.fst hp))
      hndsplit.2
    simp only [encComps] at htail
    rw [htail]
    simp

/-- Pass 3 on one rebuilt store: linking restores the original instances. -/
theorem resolveStore_enc (dopts : DOptions) (ids : List String) (cls : CompClass) :
    ∀ store, wfStore ids cls store = true →
      resolveStore dopts ids (encStoreInst store) = .ok (store, []) := by
  intro store hw
  cases store with
  | single c =>
    simp only [wfStore, wfInstance, Bool.and_eq_true] at hw
    simp only [encStoreInst, resolveStore, resolveComponent, encInst,
      resolve_enc_fields dopts ids c hw.2.2, exceptBind_ok]
  | many cs =>
    simp only [wfStore, Bool.and_eq_true, List.all_eq_true] at hw
    have hall := hw.2
    simp only [encStoreInst, resolveStore]
    clear hw
    induction cs with
    | nil => rfl
    | cons c cs ih =>
      have hc := hall c (by simp)
      simp only [wfInstance, Bool.and_eq_true] at hc
      simp only [List.map_cons, resolveStore.go, resolveComponent, encInst,
        resolve_enc_fields dopts ids c hc.2, exceptBind_ok]
      rw [ih (fun c2 hc2 => hall c2 (by simp [hc2]))]
      rfl
  | keyed cs =>
    simp only [wfStore, Bool.and_eq_true, List.all_eq_true] at hw
    have hall := hw.2
    simp only [encStoreInst, resolveStore]
    clear hw
    induction cs with
    | nil => rfl
    | cons p cs ih =>
      have hp := hall p (by simp)
      simp only [wfInstance, Bool.and_eq_true] at hp
      simp only [List.map_cons, resolveStore.goKeyed, resolveComponent, encInst,
        resolve_enc_fields dopts ids p.2 hp.1.2.2, exceptBind_ok]
      have ihh := ih (fun p2 hp2 => hall p2 (by simp [hp2]))
      simp only [encInst] at ihh
      rw [ihh]
      rfl

/-- Pass 3 on a whole rebuilt entity. -/
theorem resolveEntity_enc (dopts : DOptions) (ids : List String) (reg : CompRegistry)
    (id : String) :
    ∀ comps : List (String × CompStore),
      (∀ p ∈ comps, ∃ cls, regGet? reg p.1 = some cls ∧ wfStore ids cls p.2 = true) →
      resolveEntity dopts ids ⟨id, comps.map (fun p => (p.1, encStoreInst p.2))⟩ =
        .ok (⟨id, comps⟩, []) := by
  intro comps hcls
  simp only [resolveEntity]
  have hgo : ∀ cs, (∀ p ∈ cs, ∃ cls, regGet? reg p.1 = some cls ∧
      wfStore ids cls p.2 = true) →
      resolveEntity.go dopts ids (cs.map (fun p => (p.1, encStoreInst p.2))) =
        .ok (cs, []) := by
    intro cs
    induction cs with
    | nil => intro _; rfl
    | cons p cs ih =>
      intro h
      obtain ⟨cls, _, hw⟩ := h p (by simp)
      simp only [List.map_cons, resolveEntity.go,
        resolveStore_enc dopts ids cls p.2 hw, exceptBind_ok]
      rw [ih (fun q hq => h q (by simp [hq]))]
      rfl
  rw [hgo comps hcls]
  rfl

theorem wfEnt_fields (reg : CompRegistry) (ids : List String) (e : Ent)
    (h : wfEnt reg ids e = true) :
    e.serializable = true ∧ e.id ≠ "" ∧ nodupKeys (e.comps.map Prod.fst) = true ∧
      ∀ p ∈ e.comps, (!(reservedKeys.contains p.1)) = true ∧
        ∃ cls, regGet? reg p.1 = some cls ∧ wfStore ids cls p.2 = true := by
  simp only [wfEnt, Bool.and_eq_true, List.all_eq_true] at h
  refine ⟨h.1.1.1, by simpa using h.1.1.2, h.1.2, ?_⟩
  intro p hp
  have := h.2 p hp
  simp only [Bool.and_eq_true] at this
  refine ⟨this.1.1, ?_⟩
  rcases hr : regGet? reg p.1 with _ | cls
  · rw [hr] at this
    simp at this
  · rw [hr] at this
    exact ⟨cls, rfl, this.2⟩

/-- The component loop of `_serializeEntity` under empty exclude and absent
only lists emits the encoded component record. -/
theorem serializeEntityComps_enc (opts : SOptions) (hex : opts.excludeComponents = [])
    (honly : opts.onlyComponents = none) :
    ∀ (cs : List (String × CompStore)) (refs : List String),
      (serializeEntityComps opts cs refs).1 = encComps cs
  | [], _ => rfl
  | (key, store) :: cs, refs => by
    simp only [serializeEntityComps, hex, honly, List.contains_nil, Bool.false_eq_true,
      if_false]
    have hv := serializeComponentStore_eq store refs
    rw [hv]
    simp only [encComps, List.map_cons]
    rw [encodeValue_fst (storeToValue store) refs]
    have htail := serializeEntityComps_enc opts hex honly cs
      (encodeValue (storeToValue store) refs).2
    simp only [encComps] at htail
    rw [htail]

theorem serializeRoots_enc (opts : SOptions) (hex : opts.excludeComponents = [])
    (honly : opts.onlyComponents = none) :
    ∀ (es : List Ent) (refs : List String), (∀ e ∈ es, e.serializable = true) →
      (serializeRoots opts es refs).1 =
        es.map (fun e => some (⟨e.id, encComps e.comps⟩ : Rec))
  | [], _, _ => rfl
  | e :: es, refs, h => by
    simp only [serializeRoots, serializeEntity, h e (by simp), if_true, List.map_cons]
    rw [serializeEntityComps_enc opts hex honly e.comps refs]
    have htail := serializeRoots_enc opts hex honly es
      (serializeEntityComps opts e.comps refs).2 (fun e2 he2 => h e2 (by simp [he2]))
    rw [htail]

theorem collectEntities_all (world : List Ent) (opts : SOptions)
    (hent : opts.entities = none) (hser : ∀ e ∈ world, e.serializable = true) :
    collectEntities world opts = world := by
  simp only [collectEntities, hent]
  by_cases h : opts.excludeTransient = true
  · rw [if_pos h]
    exact List.filter_eq_self.mpr hser
  · rw [if_neg h]

/-- With reference expansion off, `serialize` emits exactly the encoded root
records. -/
theorem serialize_entities_enc (world : List Ent) (opts : SOptions) (now : Int)
    (hent : opts.entities = none) (hex : opts.excludeComponents = [])
    (honly : opts.onlyComponents = none) (hrr : opts.resolveReferences = false)
    (hser : ∀ e ∈ world, e.serializable = true) :
    (serialize world opts now).entities =
      world.map (fun e => some (⟨e.id, encComps e.comps⟩ : Rec)) := by
  simp only [serialize, hrr, Bool.false_eq_true, if_false,
    collectEntities_all world opts hent hser]
  exact serializeRoots_enc opts hex honly world [] hser

theorem wf_stv_fields (reg : CompRegistry) (ids : List String) :
    ∀ cs : List (String × CompStore),
      (∀ p ∈ cs, (!(reservedKeys.contains p.1)) = true ∧
        ∃ cls, regGet? reg p.1 = some cls ∧ wfStore ids cls p.2 = true) →
      wfValueFields ids (cs.map (fun p => (p.1, storeToValue p.2))) = true
  | [], _ => rfl
  | p :: cs, h => by
    obtain ⟨hk, cls, _, hw⟩ := h p (by simp)
    simp only [List.map_cons, wfValueFields, Bool.and_eq_true]
    exact ⟨⟨hk, wfStore_value ids cls p.2 hw⟩,
      wf_stv_fields reg ids cs (fun q hq => h q (by simp [hq]))⟩

/-- The replacer/reviver pair is the identity on an encoded component
record whose stores are registry-consistent. -/
theorem unwire_wire_comps (reg : CompRegistry) (ids : List String)
    (cs : List (String × CompStore))
    (h : ∀ p ∈ cs, (!(reservedKeys.contains p.1)) = true ∧
      ∃ cls, regGet? reg p.1 = some cls ∧ wfStore ids cls p.2 = true) :
    wireDecodeFields (wireEncodeFields (encComps cs)) = .ok (encComps cs) := by
  have hm : encComps cs =
      (cs.map (fun p => (p.1, storeToValue p.2))).map (fun p => (p.1, encV p.2)) := by
    rw [List.map_map]
    rfl
  rw [hm]
  exact wire_roundtrip_fields ids _ (wf_stv_fields reg ids cs h)

theorem unwire_wire_list (reg : CompRegistry) (ids : List String) :
    ∀ es : List Ent, (∀ e ∈ es, wfEnt reg ids e = true) →
      ((es.map (fun e => some (⟨e.id, encComps e.comps⟩ : Rec))).map
          (fun o => o.map wireRec)).mapM
        (fun o => match o with
          | some r => (unwireRec r).map some
          | none => Except.ok none) =
        Except.ok (es.map (fun e => some (⟨e.id, encComps e.comps⟩ : Rec)))
  | [], _ => rfl
  | e :: es, h => by
    have hdec := unwire_wire_comps reg ids e.comps
      (fun p hp => (wfEnt_fields reg ids e (h e (by simp))).2.2.2 p hp)
    have hrec : unwireRec (wireRec ⟨e.id, encComps e.comps⟩) =
        Except.ok ⟨e.id, encComps e.comps⟩ := by
      simp only [wireRec, unwireRec, hdec, exceptBind_ok]
    have htail := unwire_wire_list reg ids es (fun e2 he2 => h e2 (by simp [he2]))
    simp only [Except.map] at htail
    simp only [List.map_cons, List.mapM_cons, Option.map_some', hrec, htail,
      Except.map, exceptBind_ok]
    rfl

theorem unwire_wire_artifact (reg : CompRegistry) (ids : List String)
    (meta : Option Meta) (es : List Ent) (h : ∀ e ∈ es, wfEnt reg ids e = true) :
    unwireArtifact (wireArtifact
      ⟨es.map (fun e => some (⟨e.id, encComps e.comps⟩ : Rec)), meta⟩) =
      .ok ⟨es.map (fun e => some (⟨e.id, encComps e.comps⟩ : Rec)), meta⟩ := by
  simp only [wireArtifact, unwireArtifact]
  rw [unwire_wire_list reg ids es h]
  rfl

theorem createEntities_enc : ∀ es : List Ent,
    createEntities (es.map (fun e => some (⟨e.id, encComps e.comps⟩ : Rec))) =
      .ok (es.map (fun e => (⟨e.id, []⟩ : DEnt)))
  | [] => rfl
  | e :: es => by
    simp only [List.map_cons, createEntities, createEntities_enc es, exceptBind_ok]

/-- Pass 2 over a fully encoded world rebuilds every store in encoded form. -/
theorem addComponents_enc (reg : CompRegistry) (dopts : DOptions) (ids : List String)
    (hreg : wfRegistry reg = true) :
    ∀ es : List Ent, (∀ e ∈ es, wfEnt reg ids e = true) →
      addComponents reg dopts (es.map (fun e => some (⟨e.id, encComps e.comps⟩ : Rec)))
        (es.map (fun e => (⟨e.id, []⟩ : DEnt))) =
        .ok (es.map (fun e =>
          (⟨e.id, e.comps.map (fun p => (p.1, encStoreInst p.2))⟩ : DEnt)))
  | [], _ => rfl
  | e :: es, h => by
    obtain ⟨-, -, hnd, hall⟩ := wfEnt_fields reg ids e (h e (by simp))
    have hcls : ∀ p ∈ e.comps, ∃ cls, regGet? reg p.1 = some cls ∧
        wfStore ids cls p.2 = true ∧ nodupKeys (cls.properties.map Prod.fst) = true := by
      intro p hp
      obtain ⟨cls, hr, hw⟩ := (hall p hp).2
      exact ⟨cls, hr, hw, wfRegistry_props reg hreg p.1 cls hr⟩
    have hrec := addComponentsRec_enc reg dopts ids e.id e.comps [] hcls
      (fun p _ => by simp) hnd
    simp only [List.nil_append] at hrec
    simp only [List.map_cons, addComponents, hrec, exceptBind_ok,
      addComponents_enc reg dopts ids hreg es (fun e2 he2 => h e2 (by simp [he2]))]

/-- Pass 3 over a rebuilt world restores the live components with no
dangling-reference logs. -/
theorem resolveEntities_enc (reg : CompRegistry) (dopts : DOptions) (ids : List String) :
    ∀ es : List Ent, (∀ e ∈ es, wfEnt reg ids e = true) →
      resolveEntities dopts ids (es.map (fun e =>
        (⟨e.id, e.comps.map (fun p => (p.1, encStoreInst p.2))⟩ : DEnt))) =
        .ok (es.map toDEnt, [])
  | [], _ => rfl
  | e :: es, h => by
    have hcls : ∀ p ∈ e.comps, ∃ cls, regGet? reg p.1 = some cls ∧
        wfStore ids cls p.2 = true := fun p hp =>
      ((wfEnt_fields reg ids e (h e (by simp))).2.2.2 p hp).2
    simp only [List.map_cons, resolveEntities,
      resolveEntity_enc dopts ids reg e.id e.comps hcls, exceptBind_ok,
      resolveEntities_enc reg dopts ids es (fun e2 he2 => h e2 (by simp [he2])),
      toDEnt, List.nil_append]

/-- A registry exercising all three store shapes: a single component with
an entity reference, an unkeyed multi component, and a keyed multi
component carrying a bigint. -/
def wfReg1 : CompRegistry :=
  [("pos", ⟨false, none, [("x", .vnum 0), ("ref", .vnull)]⟩),
   ("tag", ⟨true, none, [("t", .vstr "")]⟩),
   ("slot", ⟨true, some "name", [("name", .vstr ""), ("item", .vnull)]⟩)]

def wfEnt1 : Ent :=
  ⟨"e1", true,
    [("pos", .single [("x", .vnum 3), ("ref", .ventity "e2")]),
     ("tag", .many [[("t", .vstr "a")], [("t", .vstr "b")]])]⟩

def wfEnt2 : Ent :=
  ⟨"e2", true,
    [("slot", .keyed
      [("left", [("name", .vstr "left"), ("item", .vnull)]),
       ("right", [("name", .vstr "right"), ("item", .vbigint 5)])])]⟩

def c1opts : SOptions := ⟨none, true, [], none, false, 3, true, false, 1, none⟩

/-- Registry and entity for the round-trip counterexample: a live plain
object shaped like the bigint wire marker. -/
def statReg : CompRegistry := [("stat", ⟨false, none, [("p", .vnull)]⟩)]

def injEnt : Ent :=
  ⟨"e1", true, [("stat", .single [("p", .vobj [("$bigint", .vstr "1")])])]⟩

/-- An entity carrying a live Date value. -/
def dateEnt : Ent :=
  ⟨"e1", true, [("stat", .single [("p", .vdate "2020-01-01T00:00:00.000Z")])]⟩

deriving instance DecidableEq for Except

/-- C1 counterexample: the spec claims `deserialize(fromJSON(toJSON(
serialize(G))))` reproduces every entity exactly.  Two failures: a live
component value that is a plain object shaped like the bigint wire marker
(`{ $bigint: "1" }`) serializes to itself, but the reviver rewrites
it to the BigInt `1n`; and a live Date is turned into its plain ISO string
by `Date.prototype.toJSON` before the replacer ever sees it, and the
reviver leaves plain strings alone — so in both cases the round trip
returns an entity different from the original. -/
theorem roundtrip_marker_counterexample :
    (roundTrip statReg [injEnt] c1opts DOptions.default 0 =
        .ok ([⟨"e1", [("stat", .single [("p", .vbigint 1)])]⟩], []) ∧
      roundTrip statReg [injEnt] c1opts DOptions.default 0 ≠
        .ok ([toDEnt injEnt], [])) ∧
    (roundTrip statReg [dateEnt] c1opts DOptions.default 0 =
        .ok ([⟨"e1",
          [("stat", .single [("p", .vstr "2020-01-01T00:00:00.000Z")])]⟩], []) ∧
      roundTrip statReg [dateEnt] c1opts DOptions.default 0 ≠
        .ok ([toDEnt dateEnt], [])) := by
  refine ⟨⟨rfl, by decide⟩, ⟨rfl, by decide⟩⟩

/-- C1 (amended): for a registry-consistent world whose live values avoid
the reserved wire-marker and skip keys (so no live value collides with the
transport encoding) and contain no live Date values (stringify degrades a
Date to its plain ISO string, so Dates never round-trip exactly), with
default serialize scoping (no entity subset, no component excludes or
onlys, reference expansion off), the full pipeline
`deserialize(fromJSON(toJSON(serialize(G))))` succeeds and returns exactly
the original entities — ids, component stores, instance properties,
entity references and BigInts — with no dangling-reference warnings. -/
theorem serialize_deserialize_roundtrip (reg : CompRegistry) (world : List Ent)
    (opts : SOptions) (dopts : DOptions) (now : Int)
    (hwf : wfWorld reg world = true) (hreg : wfRegistry reg = true)
    (hent : opts.entities = none) (hex : opts.excludeComponents = [])
    (honly : opts.onlyComponents = none) (hrr : opts.resolveReferences = false) :
    roundTrip reg world opts dopts now = .ok (world.map toDEnt, []) := by
  have hents : ∀ e ∈ world, wfEnt reg (world.map (fun e => e.id)) e = true := by
    simpa only [wfWorld, List.all_eq_true] using hwf
  have hser : ∀ e ∈ world, e.serializable = true := fun e he =>
    (wfEnt_fields reg (world.map (fun e => e.id)) e (hents e he)).1
  have hart := serialize_entities_enc world opts now hent hex honly hrr hser
  have heta : serialize world opts now =
      (⟨world.map (fun e => some (⟨e.id, encComps e.comps⟩ : Rec)),
        (serialize world opts now).meta⟩ : Artifact) := by
    rw [← hart]
  simp only [roundTrip]
  rw [heta, unwire_wire_artifact reg (world.map (fun e => e.id))
    (serialize world opts now).meta world hents]
  simp only [exceptBind_ok, deserialize]
  rw [createEntities_enc world]
  simp only [exceptBind_ok]
  rw [addComponents_enc reg dopts (world.map (fun e => e.id)) hreg world hents]
  simp only [exceptBind_ok]
  have hmapids : (world.map (fun e => (⟨e.id, []⟩ : DEnt))).map (fun e => e.id) =
      world.map (fun e => e.id) := by
    rw [List.map_map]
    rfl
  rw [hmapids]
  exact resolveEntities_enc reg dopts (world.map (fun e => e.id)) world hents

theorem serialize_deserialize_roundtrip_witness :
    (wfWorld wfReg1 [wfEnt1, wfEnt2] = true ∧ wfRegistry wfReg1 = true ∧
        c1opts.entities = none ∧ c1opts.excludeComponents = [] ∧
        c1opts.onlyComponents = none ∧ c1opts.resolveReferences = false) ∧
      roundTrip wfReg1 [wfEnt1, wfEnt2] c1opts DOptions.default 0 =
        .ok (([wfEnt1, wfEnt2]).map toDEnt, []) :=
  ⟨⟨by decide, by decide, rfl, rfl, rfl, rfl⟩,
    serialize_deserialize_roundtrip wfReg1 [wfEnt1, wfEnt2] c1opts DOptions.default 0
      (by decide) (by decide) rfl rfl rfl rfl⟩
